import Mathlib

/-! Verification of the pdf-logo detection-and-redaction pipeline.

The JavaScript processor (apps/api/src/processor.js) is shallowly embedded.
Pure pixel, geometry and decision code is translated to executable Lean
functions over Nat and Q (JS doubles are modelled by exact rationals; the
NaN value that JS Number coercion can produce while parsing a classifier
reply is modelled by Option Q with none standing for NaN).  The effectful
page loop is modelled as a pure function over abstract per-page detection
inputs, and filesystem or network inputs (reference images, classifier
replies) are abstract parameters.  Raster buffers are total functions from
flat byte or pixel index to value, matching the flat typed arrays of the
source; JS while-loops are embedded with an explicit structural fuel that
is always at least the number of remaining iterations.
-/

namespace PdfLogo

/-- clamp from processor.js line 15: Math.max(min, Math.min(max, value)),
for genuine (non-NaN) numbers. -/
def jsClamp (value lo hi : ℚ) : ℚ := max lo (min hi value)

/-- A rectangle with rational coordinates, used both for pixel bboxes and
for document-space rectangles (processor.js uses plain {x,y,width,height}
objects for both). -/
structure RectQ where
  x : ℚ
  y : ℚ
  width : ℚ
  height : ℚ
deriving DecidableEq

/-- imageBboxToPdfRect from processor.js lines 322-335: linear scaling of
each axis, vertical flip, then clamping of x,y into page bounds and of
width,height into [1, page dimension]. -/
def imageBboxToPdfRect (bboxPx : RectQ) (renderW renderH pageW pageH : ℚ) : RectQ :=
  let x := bboxPx.x / renderW * pageW
  let yTop := bboxPx.y / renderH * pageH
  let width := bboxPx.width / renderW * pageW
  let height := bboxPx.height / renderH * pageH
  let y := pageH - yTop - height
  { x := jsClamp x 0 pageW
    y := jsClamp y 0 pageH
    width := jsClamp width 1 pageW
    height := jsClamp height 1 pageH }

/-- The inverse linear mapping named by the claim (not present in the
source): scale a document rectangle back to raster pixel space, undoing
the vertical flip, with the same render and page sizes. -/
def pdfRectToImageBbox (rect : RectQ) (renderW renderH pageW pageH : ℚ) : RectQ :=
  { x := rect.x / pageW * renderW
    y := (pageH - rect.y - rect.height) / pageH * renderH
    width := rect.width / pageW * renderW
    height := rect.height / pageH * renderH }

/-- isPurplePixel from processor.js lines 123-125. -/
def isPurplePixel (r g b : ℕ) : Bool :=
  55 < r && 55 < b && g < 120 && g + 18 < r && g + 18 < b

/-- Fraction of pixels of row y matching the footer colour signature
(processor.js lines 132-142).  raw is the flat interleaved byte buffer;
the model reads the three channel bytes directly (the source's
`?? raw[idx]` fallback only matters past the end of the buffer, which the
claims never reach).  For width = 0 the source computes 0/0 = NaN; the
model returns 0 and the claims all require width >= 1. -/
def rowPurpleRatio (raw : ℕ → ℕ) (width channels y : ℕ) : ℚ :=
  (((List.range width).countP fun x =>
    let idx := (y * width + x) * channels
    isPurplePixel (raw idx) (raw (idx + 1)) (raw (idx + 2))) : ℚ) / (width : ℚ)

/-- The inner while-loop of detectFooterBand (processor.js lines 155-159):
starting at row y, consume rows while y < height and ratio y >= 0.2;
return (the row after the run, the sum of consumed ratios, the number of
consumed rows).  fuel bounds the iteration count; any fuel >= height - y
computes the loop exactly. -/
def takeRun (ratio : ℕ → ℚ) (height : ℕ) : ℕ → ℕ → ℕ × ℚ × ℕ
  | 0, y => (y, 0, 0)
  | fuel + 1, y =>
    if y < height ∧ 1/5 ≤ ratio y then
      let r := takeRun ratio height fuel (y + 1)
      (r.1, ratio y + r.2.1, r.2.2 + 1)
    else (y, 0, 0)

/-- The outer while-loop of detectFooterBand (processor.js lines 145-170):
skip rows with ratio < 0.28; at an entry row take the maximal run of rows
with ratio >= 0.2 (the entry row itself always qualifies, since
0.28 >= 0.2, so its iteration is unrolled before calling takeRun), then
keep the band if its height reaches minBand and its score beats the best
so far.  Returns the best (bandStart, bandEnd, score) if any. -/
def scanBands (ratio : ℕ → ℚ) (height minBand : ℕ) :
    ℕ → ℕ → Option (ℕ × ℕ × ℚ) → Option (ℕ × ℕ × ℚ)
  | 0, _, best => best
  | fuel + 1, y, best =>
    if y < height then
      if ratio y < 28/100 then scanBands ratio height minBand fuel (y + 1) best
      else
        let r := takeRun ratio height (height - y) (y + 1)
        let ny := r.1
        let ratioSum := ratio y + r.2.1
        let bandRows := r.2.2 + 1
        let bandEnd := ny - 1
        let bandHeight := bandEnd - y + 1
        let avg := if 0 < bandRows then ratioSum / (bandRows : ℚ) else 0
        let best' :=
          if minBand ≤ bandHeight then
            let sc := (bandHeight : ℚ) * (7/10) + avg * (height : ℚ) * (3/10)
            match best with
            | none => some (y, bandEnd, sc)
            | some b => if b.2.2 < sc then some (y, bandEnd, sc) else best
          else best
        scanBands ratio height minBand fuel ny best'
    else best

/-- A pixel-space band rectangle as returned by detectFooterBand. -/
structure Band where
  x0 : ℕ
  y0 : ℕ
  x1 : ℕ
  y1 : ℕ
deriving DecidableEq

/-- detectFooterBand from processor.js lines 127-179.  startY is
floor(height*0.45) and minBand is max(24, floor(height*0.05)); the float
products involved are exact enough that Nat division matches Math.floor.
The scan fuel height+1 exceeds the number of rows, so every loop
iteration is computed. -/
def detectFooterBand (raw : ℕ → ℕ) (width height channels : ℕ) : Option Band :=
  let startY := height * 45 / 100
  let minBand := max 24 (height * 5 / 100)
  let ratio := fun y => rowPurpleRatio raw width channels y
  match scanBands ratio height minBand (height + 1) startY none with
  | none => none
  | some b => some ⟨width * 45 / 100, b.1, width, b.2.1 + 1⟩

/-- The absolute difference of two byte values, |a - b| on Nat. -/
def natAbsDiff (a b : ℕ) : ℕ := max a b - min a b

/-- computeEdgeMap from processor.js lines 108-121, with the default
threshold 22.  The returned flat binary map marks index y*width+x as an
edge when y < height-1, x < width-1 and the horizontal plus vertical
intensity gradient reaches the threshold; all other indices stay 0, as in
the zero-initialised Uint8Array of the source. -/
def computeEdgeMap (gray : ℕ → ℕ) (width height : ℕ) : ℕ → Bool :=
  fun idx =>
    let y := idx / width
    let x := idx % width
    if y < height - 1 ∧ x < width - 1 then
      let g0 := gray (y * width + x)
      decide (22 ≤ natAbsDiff g0 (gray (y * width + x + 1)) +
        natAbsDiff g0 (gray ((y + 1) * width + x)))
    else false

/-- Number of set pixels among the first n entries of a flat edge map
(the edge-count accumulation of processor.js lines 210-211). -/
def edgeCountOf (edges : ℕ → Bool) (n : ℕ) : ℕ :=
  (List.range n).countP fun i => edges i

/-- A multi-scale edge template (processor.js line 214): reference name,
variant dimensions and its flat edge map. -/
structure Template where
  refName : String
  width : ℕ
  height : ℕ
  edges : ℕ → Bool

/-- The pixel coordinates (tx, ty) of a template window, in the visit
order of the nested loops of scoreTemplateAt (ty outer, tx inner). -/
def pixelPairs (w h : ℕ) : List (ℕ × ℕ) :=
  (List.range h).flatMap fun ty => (List.range w).map fun tx => (tx, ty)

/-- One iteration of the (tp, fp, fn) accumulation of scoreTemplateAt
(processor.js lines 270-276): bump tp, fp or fn according to the (page
edge, template edge) pair at window pixel p. -/
def countStep (pageEdges : ℕ → Bool) (pageWidth x y : ℕ) (t : Template)
    (acc : ℕ × ℕ × ℕ) (p : ℕ × ℕ) : ℕ × ℕ × ℕ :=
  let pe := pageEdges ((y + p.2) * pageWidth + x + p.1)
  let te := t.edges (p.2 * t.width + p.1)
  if pe && te then (acc.1 + 1, acc.2.1, acc.2.2)
  else if pe && !te then (acc.1, acc.2.1 + 1, acc.2.2)
  else if !pe && te then (acc.1, acc.2.1, acc.2.2 + 1)
  else acc

/-- The (tp, fp, fn) accumulation of scoreTemplateAt (processor.js lines
260-277), folded over the window pixels in loop order. -/
def scoreCounts (pageEdges : ℕ → Bool) (pageWidth x y : ℕ) (t : Template) : ℕ × ℕ × ℕ :=
  (pixelPairs t.width t.height).foldl (countStep pageEdges pageWidth x y t) (0, 0, 0)

/-- scoreTemplateAt from processor.js lines 260-281:
score = tp / (tp + 0.65*fp + 1.25*fn) when the denominator is positive,
else 0. -/
def scoreTemplateAt (pageEdges : ℕ → Bool) (pageWidth x y : ℕ) (t : Template) : ℚ :=
  let c := scoreCounts pageEdges pageWidth x y t
  let denom : ℚ := (c.1 : ℚ) + 65/100 * (c.2.1 : ℚ) + 125/100 * (c.2.2 : ℚ)
  if 0 < denom then (c.1 : ℚ) / denom else 0

/-- Declarative overlap count over the template grid: the number of window
pixels whose (page edge bit, template edge bit) pair satisfies sel. -/
def overlapCount (pageEdges : ℕ → Bool) (pageWidth x y : ℕ) (t : Template)
    (sel : Bool → Bool → Bool) : ℕ :=
  ∑ ty ∈ Finset.range t.height, ∑ tx ∈ Finset.range t.width,
    if sel (pageEdges ((y + ty) * pageWidth + x + tx)) (t.edges (ty * t.width + tx)) then 1 else 0

/-- A pixel-space search zone (x0, y0, x1, y1). -/
structure Zone where
  x0 : ℕ
  y0 : ℕ
  x1 : ℕ
  y1 : ℕ
deriving DecidableEq

/-- A pixel-space bounding box. -/
structure BboxN where
  x : ℕ
  y : ℕ
  width : ℕ
  height : ℕ
deriving DecidableEq

/-- The best-match record tracked by detectLogoByTemplateMatch. -/
structure MatchBest where
  score : ℚ
  bboxPx : Option BboxN
  matchedReference : Option String
deriving DecidableEq

/-- The positions start, start+3, start+6, ... up to stop, as visited by
`for (v = start; v <= stop; v += 3)`. -/
def stepPositions (start stop : ℕ) : List ℕ :=
  if start ≤ stop then (List.range ((stop - start) / 3 + 1)).map fun k => start + 3 * k
  else []

/-- The (x, y) window positions scanned inside one zone for a template of
size tW x tH (processor.js lines 294-300): skip the zone when
maxX <= x0 or maxY <= y0, else step both axes by 3; y is the outer loop.
The Nat subtraction z.x1 - tW truncates at 0 exactly when the JS value is
<= 0, and the guard then skips the zone in both semantics. -/
def zoneCandidates (z : Zone) (tW tH : ℕ) : List (ℕ × ℕ) :=
  let maxX := z.x1 - tW
  let maxY := z.y1 - tH
  if maxX ≤ z.x0 ∨ maxY ≤ z.y0 then []
  else (stepPositions z.y0 maxY).flatMap fun y => (stepPositions z.x0 maxX).map fun x => (x, y)

/-- The strict-improvement update of detectLogoByTemplateMatch
(processor.js lines 301-304) for one scanned position. -/
def bestStep (pageEdges : ℕ → Bool) (pageWidth : ℕ) (t : Template)
    (best : MatchBest) (pos : ℕ × ℕ) : MatchBest :=
  let s := scoreTemplateAt pageEdges pageWidth pos.1 pos.2 t
  if best.score < s then
    { score := s
      bboxPx := some ⟨pos.1, pos.2, t.width, t.height⟩
      matchedReference := some t.refName }
  else best

/-- detectLogoByTemplateMatch from processor.js lines 283-311: track the
single best (score, bbox, reference) by strict improvement across all
templates and scanned positions, starting from score 0 with null bbox.
With no search zone the default bottom-right zone is used. -/
def detectLogoByTemplateMatch (pageEdges : ℕ → Bool) (pageWidth pageHeight : ℕ)
    (templates : List Template) (searchZone : Option Zone) : MatchBest :=
  let zones := match searchZone with
    | some z => [z]
    | none => [⟨pageWidth * 45 / 100, pageHeight * 60 / 100, pageWidth, pageHeight⟩]
  templates.foldl
    (fun best t =>
      zones.foldl
        (fun best z =>
          (zoneCandidates z t.width t.height).foldl (bestStep pageEdges pageWidth t) best)
        best)
    { score := 0, bboxPx := none, matchedReference := none }

/-- A page edge map consisting exactly of template t's own edge pixels
embedded verbatim at pixel position (px, py) of a page of width
pageWidth, with every other pixel edge-free. -/
def embedPage (t : Template) (pageWidth px py : ℕ) : ℕ → Bool :=
  fun idx =>
    let x := idx % pageWidth
    let y := idx / pageWidth
    decide (px ≤ x) && decide (x < px + t.width) &&
      decide (py ≤ y) && decide (y < py + t.height) &&
      t.edges ((y - py) * t.width + (x - px))

/-- The set of edge pixels of a template, as (tx, ty) grid coordinates. -/
def templateEdgeFinset (t : Template) : Finset (ℕ × ℕ) :=
  (Finset.range t.width ×ˢ Finset.range t.height).filter
    fun p => t.edges (p.2 * t.width + p.1) = true

/-- One variant produced by the sharp resize pipeline for a given target
width: raw dimensions and the flat grayscale buffer. -/
structure VariantRaw where
  width : ℕ
  height : ℕ
  gray : ℕ → ℕ

/-- One entry of the reference directory, abstracting the filesystem and
the sharp trim step of loadLogoTemplates: the file name, the metadata of
the trimmed image (none when width or height is missing, the
`!baseMeta.width || !baseMeta.height` case), and the resize oracle giving
the raw variant for each target width. -/
structure RefImage where
  name : String
  baseMeta : Option (ℕ × ℕ)
  variantAt : ℕ → VariantRaw

/-- The filename filter of loadLogoTemplates (processor.js line 185): the
case-insensitive extension test for .png, .jpg or .jpeg. -/
def hasImageExt (name : String) : Bool :=
  name.toLower.endsWith ".png" || name.toLower.endsWith ".jpg" ||
    name.toLower.endsWith ".jpeg"

/-- The fixed target widths of processor.js line 198. -/
def targetWidths : List ℕ := [90, 120, 150, 190, 230]

/-- One iteration of the variant loop of loadLogoTemplates (processor.js
lines 198-215): discard the variant when a dimension is missing or below
the minimum (width < 40 or height < 12), or when its edge map has fewer
than 40 set pixels; otherwise append it as a template. -/
def buildStep (f : RefImage) (acc : List Template) (tw : ℕ) : List Template :=
  let v := f.variantAt tw
  if v.width = 0 ∨ v.height = 0 ∨ v.width < 40 ∨ v.height < 12 then acc
  else
    let edges := computeEdgeMap v.gray v.width v.height
    if edgeCountOf edges (v.width * v.height) < 40 then acc
    else acc ++ [⟨f.name, v.width, v.height, edges⟩]

/-- The per-file variant loop of loadLogoTemplates (processor.js lines
194-215): skip the file if its trimmed metadata is missing, else fold
buildStep over the fixed target widths. -/
def buildVariants (f : RefImage) : List Template :=
  match f.baseMeta with
  | none => []
  | some _ => targetWidths.foldl (buildStep f) []

/-- loadLogoTemplates from processor.js lines 181-224 over the abstract
directory listing: throws when no file has a PNG/JPEG extension, or when
every produced variant was discarded. -/
def loadLogoTemplates (entries : List RefImage) : Except String (List Template) :=
  let files := entries.filter fun f => hasImageExt f.name
  if files.isEmpty then Except.error "No logo references found"
  else
    let templates := files.foldl (fun acc f => acc ++ buildVariants f) []
    if templates.isEmpty then Except.error "No usable template variants could be built"
    else Except.ok templates

/-- loadLogoReferenceImages from processor.js lines 226-246, reduced to
what the page loop depends on: it throws on an extension-filtered empty
directory and otherwise yields the file names. -/
def loadLogoReferenceImages (entries : List RefImage) : Except String (List String) :=
  let files := entries.filter fun f => hasImageExt f.name
  if files.isEmpty then Except.error "No logo references found"
  else Except.ok (files.map (·.name))

/-- The page actions of the audit records.  removedFooterStrip is never
produced by the decision logic of this version but is still counted by
the summary filter of processor.js line 750. -/
inductive Action where
  | acted_none
  | removed
  | removedFooterStrip
  | replacedFooterBanner
  | review
deriving DecidableEq

/-- The configuration slice of processPdf: detector mode, force-banner
flag, the page caps and the two thresholds (settings override or config
default, already merged). -/
structure ProcCfg where
  detectorMode : String
  forceFooterBanner : Bool
  maxPagesPerJob : ℕ
  aiMaxPagesPerJob : ℕ
  aiPageLimit : ℤ
  autoThreshold : ℚ
  reviewThreshold : ℚ

/-- The per-page detection outcome entering the decision block of
processor.js line 678: the match score, the plausibility flag and the
wide-footer-strip classification.  This abstracts the rendering and the
detector branches of lines 613-676, which depend on external rasteriser,
sharp and network effects. -/
structure PageInput where
  score : ℚ
  credible : Bool
  wideFooterStrip : Bool

/-- The force-footer-banner override of processor.js lines 619-639: when
enabled it replaces the detection outcome by score 1, credible, wide
footer strip, for every detector mode. -/
def effectiveInput (cfg : ProcCfg) (inp : PageInput) : PageInput :=
  if cfg.forceFooterBanner then ⟨1, true, true⟩ else inp

/-- The audit-relevant slice of one Page Audit Record, plus a flag
recording whether the decision block drew a redaction (banner or
rectangle) on the page. -/
structure PageAudit where
  pageNumber : ℕ
  detectionScore : ℚ
  credible : Bool
  action : Action
  redacted : Bool
deriving DecidableEq

/-- The decision block of processor.js lines 678-744 for one page: the
redaction branch requires detectorMode different from ai-probe, a
credible match and score >= autoThreshold, and tags the page
replaced_footer_banner when the match is a wide footer strip, else
removed; otherwise a credible match with score >= reviewThreshold is
tagged review; otherwise none.  Only the first branch draws on the
page. -/
def pageStep (cfg : ProcCfg) (inp : PageInput) (pageNumber : ℕ) : PageAudit :=
  let e := effectiveInput cfg inp
  if cfg.detectorMode ≠ "ai-probe" ∧ e.credible ∧ cfg.autoThreshold ≤ e.score then
    { pageNumber := pageNumber, detectionScore := e.score, credible := e.credible
      action := if e.wideFooterStrip then Action.replacedFooterBanner else Action.removed
      redacted := true }
  else if e.credible ∧ cfg.reviewThreshold ≤ e.score then
    { pageNumber := pageNumber, detectionScore := e.score, credible := e.credible
      action := Action.review, redacted := false }
  else
    { pageNumber := pageNumber, detectionScore := e.score, credible := e.credible
      action := Action.acted_none, redacted := false }

/-- The action filter of the summary's removed count (processor.js line
750). -/
def isRemovedLike : Action → Bool
  | Action.removed => true
  | Action.removedFooterStrip => true
  | Action.replacedFooterBanner => true
  | _ => false

/-- The job-level outcome: the ordered audit records, the summary fields
of processor.js lines 767-774 and the returned record of lines 781-788. -/
structure JobResult where
  pages : List PageAudit
  totalPages : ℕ
  totalPagesInPdf : ℕ
  removed : ℕ
  review : ℕ
  noneCount : ℕ
  statusHint : String
  pagesTotal : ℕ
  pagesProcessed : ℕ
  hasReview : Bool
deriving DecidableEq

/-- The page loop and summary of processPdf (processor.js lines 599-788)
once template or reference loading has succeeded: cap the page count by
maxPagesPerJob, aiMaxPagesPerJob and, when positive, aiPageLimit; run
pageStep per page; count removed (including replaced_footer_banner via
isRemovedLike) and review pages; and derive statusHint / hasReview. -/
def processCore (cfg : ProcCfg) (pdfPageCount renderPageCount : ℕ)
    (detect : ℕ → PageInput) : JobResult :=
  let totalPagesInPdf := min pdfPageCount renderPageCount
  let totalPages := min totalPagesInPdf (min cfg.maxPagesPerJob cfg.aiMaxPagesPerJob)
  let pagesToProcess :=
    if 0 < cfg.aiPageLimit then min totalPages cfg.aiPageLimit.toNat else totalPages
  let auditPages := (List.range pagesToProcess).map fun i => pageStep cfg (detect i) (i + 1)
  let removed := auditPages.countP fun p => isRemovedLike p.action
  let review := auditPages.countP fun p => decide (p.action = Action.review)
  { pages := auditPages
    totalPages := pagesToProcess
    totalPagesInPdf := totalPagesInPdf
    removed := removed
    review := review
    noneCount := auditPages.length - removed - review
    statusHint := if 0 < review ∨ removed = 0 then "needs_review" else "completed"
    pagesTotal := pagesToProcess
    pagesProcessed := pagesToProcess
    hasReview := decide (0 < review ∨ removed = 0) }

def processPdf (cfg : ProcCfg) (entries : List RefImage)
    (pdfPageCount renderPageCount : ℕ) (detect : ℕ → PageInput) :
    Except String JobResult :=
  let useAi := cfg.detectorMode = "ai-probe" ∨ cfg.detectorMode = "ai-cut"
  match (if useAi then Except.ok [] else loadLogoTemplates entries : Except String (List Template)) with
  | Except.error e => Except.error e
  | Except.ok _ =>
    match (if useAi then loadLogoReferenceImages entries else Except.ok [] : Except String (List String)) with
    | Except.error e => Except.error e
    | Except.ok _ => Except.ok (processCore cfg pdfPageCount renderPageCount detect)

/-! processPdf above models processor.js lines 574-789 with the
rendering and drawing effects abstracted: templates (or reference
images, for the AI modes) are loaded first and any failure aborts the
job before the page loop; the rest of the run is the pure processCore
over abstract per-page detection inputs. -/

/-- The ai-probe configuration used in the decision-policy
counterexample: default thresholds matchAutoThreshold = 0.62 and
matchReviewThreshold = 0.48, default page caps. -/
def cfgAiProbe : ProcCfg := ⟨"ai-probe", false, 200, 100, 0, 62/100, 48/100⟩

/-- The same configuration in ai-cut mode. -/
def cfgAiCut : ProcCfg := ⟨"ai-cut", false, 200, 100, 0, 62/100, 48/100⟩

/-- The same configuration in deterministic mode. -/
def cfgDet : ProcCfg := ⟨"deterministic", false, 200, 100, 0, 62/100, 48/100⟩

/-- An ai-cut configuration with maxPagesPerJob = 2, to exercise the
page cap. -/
def cfgCap : ProcCfg := ⟨"ai-cut", false, 2, 100, 0, 62/100, 48/100⟩

/-- A reference directory with one PNG whose variants are all usable
only for the AI modes (the variant data is irrelevant there). -/
def aiRefEntries : List RefImage := [⟨"logo.png", some (100, 40), fun _ => ⟨0, 0, fun _ => 0⟩⟩]

/-- A reference directory with one PNG whose resize variants are all
10 x 5 pixels, below the 40 x 12 minimum, so every variant is
discarded. -/
def badRefEntries : List RefImage := [⟨"a.png", some (10, 10), fun _ => ⟨10, 5, fun _ => 0⟩⟩]

/-- A JSON-like JavaScript value, the shape of one element of the list
returned by parseVisionDetections (processor.js lines 55-106).  That
parser always returns a list of parsed JSON values, and the empty list on
malformed or unparseable text, so quantifying over `List JsValue` covers
every classifier reply text. -/
inductive JsValue where
  | undef
  | jsNull
  | bool (b : Bool)
  | num (q : ℚ)
  | str (s : String)
  | arr (elems : List JsValue)
  | obj (fields : List (String × JsValue))

/-- Property lookup on a JS object's field list; the last binding wins,
as for duplicate keys in a JS object. -/
def lookupField (fields : List (String × JsValue)) (key : String) : JsValue :=
  fields.foldl (fun acc kv => if kv.1 = key then kv.2 else acc) JsValue.undef

/-- Optional-chained property access item?.key: undefined on any
non-object. -/
def getField (v : JsValue) (key : String) : JsValue :=
  match v with
  | JsValue.obj fields => lookupField fields key
  | _ => JsValue.undef

/-- JS truthiness of a parsed JSON value (a parsed JSON number is never
NaN). -/
def jsTruthy : JsValue → Bool
  | JsValue.undef => false
  | JsValue.jsNull => false
  | JsValue.bool b => b
  | JsValue.num q => decide (q ≠ 0)
  | JsValue.str s => decide (s ≠ "")
  | JsValue.arr _ => true
  | JsValue.obj _ => true

/-- JS Number(...) coercion, with none standing for NaN.  Number of a
plain object is NaN, of null is 0, of a boolean 0 or 1.  Model
restriction: the numeric coercions of strings and arrays (e.g.
Number("1.5"), Number([])) are collapsed to NaN; no claim in scope feeds
a string or array into a numeric field. -/
def jsToNumber : JsValue → Option ℚ
  | JsValue.undef => none
  | JsValue.jsNull => some 0
  | JsValue.bool b => some (if b then 1 else 0)
  | JsValue.num q => some q
  | JsValue.str _ => none
  | JsValue.arr _ => none
  | JsValue.obj _ => none

/-- The nullish coalescing operator v ?? d. -/
def nullishOr (v d : JsValue) : JsValue :=
  match v with
  | JsValue.undef => d
  | JsValue.jsNull => d
  | _ => v

/-- clamp on a possibly-NaN number: JS Math.max and Math.min propagate
NaN, so clamp(NaN, lo, hi) is NaN. -/
def jsClampNaN (v : Option ℚ) (lo hi : ℚ) : Option ℚ :=
  v.map fun q => max lo (min hi q)

/-- A parsed candidate bbox after clamping (processor.js lines 513-520);
each field is none when the source value coerced to NaN. -/
structure VBbox where
  x : Option ℚ
  y : Option ℚ
  width : Option ℚ
  height : Option ℚ
deriving DecidableEq

/-- A mapped candidate (processor.js lines 510-527). -/
structure VCandidate where
  found : Bool
  confidence : Option ℚ
  bbox : Option VBbox
  matchedReference : JsValue

/-- The .map body of processor.js lines 510-527: coerce found to a
boolean, clamp confidence into [0,1], clamp the bbox fields into [0,1]
when a truthy bbox is present, and default matchedReference to null when
falsy. -/
def mkCandidate (item : JsValue) : VCandidate :=
  let bboxV := getField item "bbox"
  { found := jsTruthy (getField item "found")
    confidence := jsClampNaN (jsToNumber (nullishOr (getField item "confidence") (JsValue.num 0))) 0 1
    bbox :=
      if jsTruthy bboxV then
        some
          { x := jsClampNaN (jsToNumber (nullishOr (getField bboxV "x") (JsValue.num 0))) 0 1
            y := jsClampNaN (jsToNumber (nullishOr (getField bboxV "y") (JsValue.num 0))) 0 1
            width := jsClampNaN (jsToNumber (nullishOr (getField bboxV "width") (JsValue.num 0))) 0 1
            height := jsClampNaN (jsToNumber (nullishOr (getField bboxV "height") (JsValue.num 0))) 0 1 }
      else none
    matchedReference :=
      let mv := getField item "matchedReference"
      if jsTruthy mv then mv else JsValue.jsNull }

/-- The JS comparison v > 0 on a possibly-NaN number (false for NaN). -/
def posNum : Option ℚ → Bool
  | some q => decide (0 < q)
  | none => false

/-- The .filter predicate of processor.js line 528:
c.found && c.bbox && c.bbox.width > 0 && c.bbox.height > 0. -/
def passesFilter (c : VCandidate) : Bool :=
  c.found &&
    (match c.bbox with
     | some b => posNum b.width && posNum b.height
     | none => false)

/-- The sort key confidence + bbox.x * 0.1 of processor.js lines 536-537,
NaN-propagating. -/
def qualityKey (c : VCandidate) : Option ℚ :=
  match c.confidence, c.bbox with
  | some q, some b =>
    (match b.x with
     | some x => some (q + x * (1/10))
     | none => none)
  | _, _ => none

/-- Whether the comparator of processor.js lines 535-539 orders a
strictly before b: its value qb - qa is negative exactly when both keys
are numbers and key a > key b; a NaN comparator value is treated as 0
(equal) by Array.prototype.sort. -/
def keyGt (a b : VCandidate) : Bool :=
  match qualityKey a, qualityKey b with
  | some qa, some qb => decide (qb < qa)
  | _, _ => false

/-- Stable insertion step for the descending sort: an element already in
the list stays ahead of the inserted one unless it compares strictly
smaller, matching the stable Array.prototype.sort with the comparator
above. -/
def insertByQuality (c : VCandidate) : List VCandidate → List VCandidate
  | [] => [c]
  | d :: rest => if keyGt d c then d :: insertByQuality c rest else c :: d :: rest

/-- The candidates.sort(...) of processor.js line 535, as a stable
insertion sort.  For an all-numeric key set this coincides with any
stable sort under the comparator; with NaN keys the comparator returns 0,
so the affected elements keep their relative order. -/
def sortByQuality (l : List VCandidate) : List VCandidate :=
  l.foldr insertByQuality []

/-- The list of candidates surviving the map + filter of processor.js
lines 509-528. -/
def survivors (items : List JsValue) : List VCandidate :=
  (items.map mkCandidate).filter passesFilter

/-- The not-found result of processor.js line 531 (rawText omitted). -/
def visionNotFound : VCandidate :=
  { found := false, confidence := some 0, bbox := none, matchedReference := JsValue.jsNull }

/-- detectLogoWithVision from processor.js lines 509-548, over the
abstract list of parsed reply values: map, clamp, filter, stable-sort by
quality and keep the best; an empty survivor list degrades to the
not-found result.  The network call, image resizing and rawText are
outside the model. -/
def detectLogoWithVision (items : List JsValue) : VCandidate :=
  match sortByQuality (survivors items) with
  | [] => visionNotFound
  | best :: _ =>
    { found := true, confidence := best.confidence, bbox := best.bbox
      matchedReference := best.matchedReference }

/-- A synthetic 3-channel bitmap of the given width and height whose
bottom h rows are solid footer colour #6E1F5D (110, 31, 93) and whose
remaining rows are solid white. -/
def syntheticFooterRaw (width height h : ℕ) : ℕ → ℕ :=
  fun idx =>
    let pixel := idx / 3
    let y := pixel / width
    if height - h ≤ y then (if idx % 3 = 0 then 110 else if idx % 3 = 1 then 31 else 93)
    else 255

/-- A syntactically valid classifier reply whose confidence field is a
JSON object: JS Number({}) is NaN and clamp propagates it. -/
def c4BadReply : List JsValue :=
  [JsValue.obj [("found", JsValue.bool true), ("confidence", JsValue.obj []),
    ("bbox", JsValue.obj [("x", JsValue.num (1/2)), ("y", JsValue.num (9/10)),
      ("width", JsValue.num (1/10)), ("height", JsValue.num (1/10))])]]

/-- A two-candidate classifier reply whose first candidate has NaN
confidence (from Number({})) but a far-right bbox, and whose second has
confidence 0.9 at x = 0.1. -/
def c7NanReply : List JsValue :=
  [JsValue.obj [("found", JsValue.bool true), ("confidence", JsValue.obj []),
    ("bbox", JsValue.obj [("x", JsValue.num (9/10)), ("y", JsValue.num (9/10)),
      ("width", JsValue.num (1/10)), ("height", JsValue.num (1/10))])],
   JsValue.obj [("found", JsValue.bool true), ("confidence", JsValue.num (9/10)),
    ("bbox", JsValue.obj [("x", JsValue.num (1/10)), ("y", JsValue.num (9/10)),
      ("width", JsValue.num (1/10)), ("height", JsValue.num (1/10))])]]

/-- A well-formed candidate with confidence 0.5 at x = 0.2 (key 0.52). -/
def c7LowItem : JsValue :=
  JsValue.obj [("found", JsValue.bool true), ("confidence", JsValue.num (1/2)),
    ("bbox", JsValue.obj [("x", JsValue.num (2/10)), ("y", JsValue.num (9/10)),
      ("width", JsValue.num (1/10)), ("height", JsValue.num (1/10))])]

/-- A well-formed candidate with confidence 0.9 at x = 0.1 (key 0.91). -/
def c7HighItem : JsValue :=
  JsValue.obj [("found", JsValue.bool true), ("confidence", JsValue.num (9/10)),
    ("bbox", JsValue.obj [("x", JsValue.num (1/10)), ("y", JsValue.num (9/10)),
      ("width", JsValue.num (1/10)), ("height", JsValue.num (1/10))])]

/-- A two-candidate all-numeric classifier reply. -/
def c7NumReply : List JsValue := [c7LowItem, c7HighItem]

/-- A single well-formed found candidate. -/
def c10GoodItem : JsValue :=
  JsValue.obj [("found", JsValue.bool true), ("confidence", JsValue.num (8/10)),
    ("bbox", JsValue.obj [("x", JsValue.num (8/10)), ("y", JsValue.num (9/10)),
      ("width", JsValue.num (1/10)), ("height", JsValue.num (1/10))])]

/-- A one-candidate classifier reply around c10GoodItem. -/
def c10GoodReply : List JsValue := [c10GoodItem]

/-! Theorems.  Each claim Cn of the specification gets exactly one main
theorem below, together with helper lemmas, and counterexample or witness
theorems where required. -/

theorem jsClamp_eq_self {v lo hi : ℚ} (h1 : lo ≤ v) (h2 : v ≤ hi) :
    jsClamp v lo hi = v := by
  unfold jsClamp
  rw [min_eq_right h2, max_eq_right h1]

theorem jsClamp_le {v lo hi : ℚ} (h1 : lo ≤ hi) : jsClamp v lo hi ≤ hi :=
  max_le h1 (min_le_left _ _)

theorem jsClamp_ge {v : ℚ} (lo hi : ℚ) : lo ≤ jsClamp v lo hi :=
  le_max_left _ _

/-- C3, counterexample.  The claim quantifies over every pixel bbox; the
bbox (0,0,1,1) on a 1000x1000 render of a 100x100 page is a genuine
in-bounds pixel bbox, yet its mapped width 0.1 is clamped up to 1, and
the inverse mapping returns width 10, which differs from the original
width 1 by 9 > 1. -/
theorem c3_roundtrip_counterexample :
    1 < |(pdfRectToImageBbox (imageBboxToPdfRect ⟨0, 0, 1, 1⟩ 1000 1000 100 100)
      1000 1000 100 100).width - (1 : ℚ)| := by
  norm_num [imageBboxToPdfRect, pdfRectToImageBbox, jsClamp]

/-- C3, amended.  For a pixel bbox lying inside the render bounds whose
mapped width and height are at least one page unit (so that the
width/height floor of 1 does not engage), the round trip through
imageBboxToPdfRect and the inverse linear mapping reproduces the bbox
exactly (hence within 1 unit per coordinate); and for every bbox
whatsoever, the resulting rectangle's x and y lie within the page bounds
and its width and height are at least 1. -/
theorem c3_roundtrip_and_bounds (bboxPx : RectQ) (renderW renderH pageW pageH : ℚ)
    (hrw : 0 < renderW) (hrh : 0 < renderH) (hpw : 0 < pageW) (hph : 0 < pageH)
    (hx0 : 0 ≤ bboxPx.x) (hy0 : 0 ≤ bboxPx.y)
    (hxr : bboxPx.x + bboxPx.width ≤ renderW)
    (hyr : bboxPx.y + bboxPx.height ≤ renderH)
    (hw1 : 1 ≤ bboxPx.width / renderW * pageW)
    (hh1 : 1 ≤ bboxPx.height / renderH * pageH) :
    pdfRectToImageBbox (imageBboxToPdfRect bboxPx renderW renderH pageW pageH)
      renderW renderH pageW pageH = bboxPx ∧
    ∀ b : RectQ,
      (0 ≤ (imageBboxToPdfRect b renderW renderH pageW pageH).x ∧
        (imageBboxToPdfRect b renderW renderH pageW pageH).x ≤ pageW) ∧
      (0 ≤ (imageBboxToPdfRect b renderW renderH pageW pageH).y ∧
        (imageBboxToPdfRect b renderW renderH pageW pageH).y ≤ pageH) ∧
      1 ≤ (imageBboxToPdfRect b renderW renderH pageW pageH).width ∧
      1 ≤ (imageBboxToPdfRect b renderW renderH pageW pageH).height := by
  constructor
  · have hwpos : 0 < bboxPx.width := by
      by_contra hneg
      push_neg at hneg
      have : bboxPx.width / renderW * pageW ≤ 0 :=
        mul_nonpos_of_nonpos_of_nonneg (div_nonpos_of_nonpos_of_nonneg hneg hrw.le) hpw.le
      linarith
    have hhpos : 0 < bboxPx.height := by
      by_contra hneg
      push_neg at hneg
      have : bboxPx.height / renderH * pageH ≤ 0 :=
        mul_nonpos_of_nonpos_of_nonneg (div_nonpos_of_nonpos_of_nonneg hneg hrh.le) hph.le
      linarith
    have hxleW : bboxPx.x ≤ renderW := by linarith
    have hwleW : bboxPx.width ≤ renderW := by linarith
    have hyleH : bboxPx.y ≤ renderH := by linarith
    have hhleH : bboxPx.height ≤ renderH := by linarith
    have hxq0 : 0 ≤ bboxPx.x / renderW * pageW :=
      mul_nonneg (div_nonneg hx0 hrw.le) hpw.le
    have hxqW : bboxPx.x / renderW * pageW ≤ pageW := by
      have : bboxPx.x / renderW ≤ 1 := (div_le_one hrw).mpr hxleW
      nlinarith
    have hwqW : bboxPx.width / renderW * pageW ≤ pageW := by
      have : bboxPx.width / renderW ≤ 1 := (div_le_one hrw).mpr hwleW
      nlinarith
    have hhqH : bboxPx.height / renderH * pageH ≤ pageH := by
      have : bboxPx.height / renderH ≤ 1 := (div_le_one hrh).mpr hhleH
      nlinarith
    have hytop0 : 0 ≤ bboxPx.y / renderH * pageH :=
      mul_nonneg (div_nonneg hy0 hrh.le) hph.le
    have hsum : bboxPx.y / renderH * pageH + bboxPx.height / renderH * pageH ≤ pageH := by
      have h1 : (bboxPx.y + bboxPx.height) / renderH ≤ 1 := (div_le_one hrh).mpr hyr
      have h2 : bboxPx.y / renderH * pageH + bboxPx.height / renderH * pageH =
          (bboxPx.y + bboxPx.height) / renderH * pageH := by ring
      nlinarith
    have hyq0 : 0 ≤ pageH - bboxPx.y / renderH * pageH - bboxPx.height / renderH * pageH := by
      linarith
    have hyqH : pageH - bboxPx.y / renderH * pageH - bboxPx.height / renderH * pageH ≤ pageH := by
      have hh0 : 0 ≤ bboxPx.height / renderH * pageH := by linarith
      linarith
    show pdfRectToImageBbox
      ⟨jsClamp (bboxPx.x / renderW * pageW) 0 pageW,
       jsClamp (pageH - bboxPx.y / renderH * pageH - bboxPx.height / renderH * pageH) 0 pageH,
       jsClamp (bboxPx.width / renderW * pageW) 1 pageW,
       jsClamp (bboxPx.height / renderH * pageH) 1 pageH⟩ renderW renderH pageW pageH = bboxPx
    rw [jsClamp_eq_self hxq0 hxqW, jsClamp_eq_self hyq0 hyqH,
      jsClamp_eq_self hw1 hwqW, jsClamp_eq_self hh1 hhqH]
    unfold pdfRectToImageBbox
    have hc : ∀ a : ℚ, a / renderW * pageW / pageW * renderW = a := by
      intro a
      field_simp
      ring
    have hcH : ∀ a : ℚ, a / renderH * pageH / pageH * renderH = a := by
      intro a
      field_simp
      ring
    cases bboxPx with
    | mk bx0 by0 bw0 bh0 =>
      simp only [RectQ.mk.injEq]
      refine ⟨hc bx0, ?_, hc bw0, hcH bh0⟩
      have : pageH - (pageH - by0 / renderH * pageH - bh0 / renderH * pageH) -
          bh0 / renderH * pageH = by0 / renderH * pageH := by ring
      rw [this, hcH by0]
  · intro b
    refine ⟨⟨jsClamp_ge _ _, jsClamp_le hpw.le⟩, ⟨jsClamp_ge _ _, jsClamp_le hph.le⟩,
      jsClamp_ge _ _, jsClamp_ge _ _⟩

/-- C3, witness: a concrete in-range bbox round-trips exactly, and a
degenerate bbox still maps to a rectangle of width at least 1. -/
theorem c3_roundtrip_witness :
    pdfRectToImageBbox (imageBboxToPdfRect ⟨10, 20, 30, 40⟩ 100 200 50 100)
      100 200 50 100 = ⟨10, 20, 30, 40⟩ ∧
    1 ≤ (imageBboxToPdfRect ⟨0, 0, 0, 0⟩ 100 200 50 100).width := by
  have h := c3_roundtrip_and_bounds ⟨10, 20, 30, 40⟩ 100 200 50 100
    (by norm_num) (by norm_num) (by norm_num) (by norm_num)
    (by norm_num) (by norm_num) (by norm_num) (by norm_num)
    (by norm_num) (by norm_num)
  exact ⟨h.1, (h.2 ⟨0, 0, 0, 0⟩).2.2.1⟩

theorem takeRun_ge (ratio : ℕ → ℚ) (height : ℕ) :
    ∀ fuel y, y ≤ (takeRun ratio height fuel y).1 := by
  intro fuel
  induction fuel with
  | zero => intro y; simp [takeRun]
  | succ n ih =>
    intro y
    rw [takeRun]
    split
    · exact le_trans (Nat.le_succ y) (ih (y + 1))
    · exact le_refl y

theorem takeRun_le_height (ratio : ℕ → ℚ) (height : ℕ) :
    ∀ fuel y, y ≤ height → (takeRun ratio height fuel y).1 ≤ height := by
  intro fuel
  induction fuel with
  | zero => intro y hy; simpa [takeRun] using hy
  | succ n ih =>
    intro y hy
    rw [takeRun]
    split
    · next hcond => exact ih (y + 1) hcond.1
    · exact hy

theorem takeRun_run_spec (ratio : ℕ → ℚ) (height : ℕ) :
    ∀ fuel y z, y ≤ z → z < (takeRun ratio height fuel y).1 → 1/5 ≤ ratio z := by
  intro fuel
  induction fuel with
  | zero => intro y z hyz hz; simp [takeRun] at hz; omega
  | succ n ih =>
    intro y z hyz hz
    rw [takeRun] at hz
    split at hz
    · next hcond =>
      rcases Nat.eq_or_lt_of_le hyz with heq | hlt
      · exact heq ▸ hcond.2
      · exact ih (y + 1) z hlt hz
    · omega

theorem takeRun_full (ratio : ℕ → ℚ) (height : ℕ) :
    ∀ fuel y, height - y ≤ fuel → y ≤ height →
      (∀ z, y ≤ z → z < height → 1/5 ≤ ratio z) →
      (takeRun ratio height fuel y).1 = height := by
  intro fuel
  induction fuel with
  | zero =>
    intro y hfuel hy _
    have : y = height := by omega
    simpa [takeRun] using this
  | succ n ih =>
    intro y hfuel hy hall
    rw [takeRun]
    rcases Nat.eq_or_lt_of_le hy with heq | hlt
    · rw [if_neg]
      · exact heq
      · rintro ⟨h1, -⟩; omega
    · rw [if_pos ⟨hlt, hall y (le_refl y) hlt⟩]
      exact ih (y + 1) (by omega) hlt (fun z hz1 hz2 => hall z (by omega) hz2)

theorem scanBands_stop (ratio : ℕ → ℚ) (height minBand : ℕ) (fuel y : ℕ)
    (best : Option (ℕ × ℕ × ℚ)) (hy : height ≤ y) :
    scanBands ratio height minBand fuel y best = best := by
  cases fuel with
  | zero => rfl
  | succ n =>
    rw [scanBands, if_neg]
    omega

theorem scanBands_skip (ratio : ℕ → ℚ) (height minBand : ℕ) :
    ∀ k fuel y best, (∀ z, y ≤ z → z < y + k → ratio z < 28/100) → y + k ≤ height →
      scanBands ratio height minBand (fuel + k) y best =
        scanBands ratio height minBand fuel (y + k) best := by
  intro k
  induction k with
  | zero => intro fuel y best _ _; rfl
  | succ n ih =>
    intro fuel y best hlow hk
    have hstep : scanBands ratio height minBand (fuel + n + 1) y best =
        scanBands ratio height minBand (fuel + n) (y + 1) best := by
      rw [scanBands, if_pos (by omega), if_pos (hlow y (le_refl y) (by omega))]
    calc scanBands ratio height minBand (fuel + (n + 1)) y best
        = scanBands ratio height minBand (fuel + n) (y + 1) best := hstep
      _ = scanBands ratio height minBand fuel (y + 1 + n) best :=
          ih fuel (y + 1) best (fun z hz1 hz2 => hlow z (by omega) (by omega)) (by omega)
      _ = scanBands ratio height minBand fuel (y + (n + 1)) best := by
          rw [show y + 1 + n = y + (n + 1) by omega]

theorem scanBands_entry_fail (ratio : ℕ → ℚ) (height minBand fuel y : ℕ)
    (best : Option (ℕ × ℕ × ℚ)) (hy : y < height) (hhigh : ¬ ratio y < 28/100)
    (hfail : ¬ minBand ≤ (takeRun ratio height (height - y) (y + 1)).1 - 1 - y + 1) :
    scanBands ratio height minBand (fuel + 1) y best =
      scanBands ratio height minBand fuel (takeRun ratio height (height - y) (y + 1)).1 best := by
  rw [scanBands, if_pos hy, if_neg hhigh]
  simp only [if_neg hfail]

theorem scanBands_entry_some (ratio : ℕ → ℚ) (height minBand fuel y : ℕ)
    (hy : y < height) (hhigh : ¬ ratio y < 28/100)
    (hok : minBand ≤ (takeRun ratio height (height - y) (y + 1)).1 - 1 - y + 1) :
    ∃ sc, scanBands ratio height minBand (fuel + 1) y none =
      scanBands ratio height minBand fuel (takeRun ratio height (height - y) (y + 1)).1
        (some (y, (takeRun ratio height (height - y) (y + 1)).1 - 1, sc)) := by
  rw [scanBands, if_pos hy, if_neg hhigh]
  refine ⟨(((takeRun ratio height (height - y) (y + 1)).1 - 1 - y + 1 : ℕ) : ℚ) * (7/10) +
    (if 0 < (takeRun ratio height (height - y) (y + 1)).2.2 + 1 then
      (ratio y + (takeRun ratio height (height - y) (y + 1)).2.1) /
        (((takeRun ratio height (height - y) (y + 1)).2.2 + 1 : ℕ) : ℚ)
     else 0) * (height : ℚ) * (3/10), ?_⟩
  simp only [if_pos hok]

theorem scanBands_no_band (ratio : ℕ → ℚ) (height minBand startY : ℕ)
    (H : ∀ a b, startY ≤ a → a ≤ b → b < height →
      ¬(28/100 ≤ ratio a ∧ (∀ z, a ≤ z → z ≤ b → 1/5 ≤ ratio z) ∧
        minBand ≤ b + 1 - a)) :
    ∀ fuel y, startY ≤ y → scanBands ratio height minBand fuel y none = none := by
  intro fuel
  induction fuel with
  | zero => intro y _; rfl
  | succ n ih =>
    intro y hy
    by_cases hyh : y < height
    · by_cases hlow : ratio y < 28/100
      · rw [scanBands, if_pos hyh, if_pos hlow]
        exact ih (y + 1) (by omega)
      · have h1 : y + 1 ≤ (takeRun ratio height (height - y) (y + 1)).1 :=
          takeRun_ge ratio height (height - y) (y + 1)
        have h2 : (takeRun ratio height (height - y) (y + 1)).1 ≤ height :=
          takeRun_le_height ratio height (height - y) (y + 1) hyh
        have hfail : ¬ minBand ≤ (takeRun ratio height (height - y) (y + 1)).1 - 1 - y + 1 := by
          intro hcon
          refine H y ((takeRun ratio height (height - y) (y + 1)).1 - 1) hy (by omega) (by omega)
            ⟨not_lt.mp hlow, ?_, by omega⟩
          intro z hz1 hz2
          rcases Nat.eq_or_lt_of_le hz1 with heq | hlt
          · calc (1 : ℚ)/5 ≤ 28/100 := by norm_num
              _ ≤ ratio y := not_lt.mp hlow
              _ = ratio z := by rw [heq]
          · exact takeRun_run_spec ratio height (height - y) (y + 1) z hlt (by omega)
        rw [scanBands_entry_fail ratio height minBand n y none hyh hlow hfail]
        exact ih _ (by omega)
    · exact scanBands_stop ratio height minBand (n + 1) y none (by omega)

theorem synth_ratio (width height h : ℕ) (hw : 0 < width) (y : ℕ) :
    rowPurpleRatio (syntheticFooterRaw width height h) width 3 y =
      if height - h ≤ y then 1 else 0 := by
  unfold rowPurpleRatio
  have hkey : ∀ x, x < width →
      (let idx := (y * width + x) * 3;
        isPurplePixel (syntheticFooterRaw width height h idx)
          (syntheticFooterRaw width height h (idx + 1))
          (syntheticFooterRaw width height h (idx + 2)))
        = decide (height - h ≤ y) := by
    intro x hxw
    have hp0 : (y * width + x) * 3 / 3 = y * width + x := by omega
    have hp1 : ((y * width + x) * 3 + 1) / 3 = y * width + x := by omega
    have hp2 : ((y * width + x) * 3 + 2) / 3 = y * width + x := by omega
    have hm0 : (y * width + x) * 3 % 3 = 0 := by omega
    have hm1 : ((y * width + x) * 3 + 1) % 3 = 1 := by omega
    have hm2 : ((y * width + x) * 3 + 2) % 3 = 2 := by omega
    have hrow : (y * width + x) / width = y := by
      rw [show y * width + x = x + width * y by ring, Nat.add_mul_div_left _ _ hw,
        Nat.div_eq_of_lt hxw]
      omega
    simp only [syntheticFooterRaw, hp0, hp1, hp2, hm0, hm1, hm2, hrow]
    by_cases hcase : height - h ≤ y
    · simp [hcase, isPurplePixel]
    · simp [hcase, isPurplePixel]
  by_cases hcase : height - h ≤ y
  · have hlen : ((List.range width).countP fun x =>
        let idx := (y * width + x) * 3
        isPurplePixel (syntheticFooterRaw width height h idx)
          (syntheticFooterRaw width height h (idx + 1))
          (syntheticFooterRaw width height h (idx + 2))) = (List.range width).length := by
      refine List.countP_eq_length.mpr fun a ha => ?_
      simp only [hkey a (List.mem_range.mp ha)]
      exact decide_eq_true hcase
    rw [hlen, List.length_range, if_pos hcase,
      div_self (by exact_mod_cast hw.ne' : (width : ℚ) ≠ 0)]
  · have hzero : ((List.range width).countP fun x =>
        let idx := (y * width + x) * 3
        isPurplePixel (syntheticFooterRaw width height h idx)
          (syntheticFooterRaw width height h (idx + 1))
          (syntheticFooterRaw width height h (idx + 2))) = 0 := by
      refine List.countP_eq_zero.mpr fun a ha => ?_
      simp only [hkey a (List.mem_range.mp ha)]
      simpa using hcase
    rw [hzero, if_neg hcase]
    simp

/-- C6, counterexample.  A 1x60 bitmap whose bottom 40 rows are solid
footer colour has h = 40 >= minBandHeight = max(24, 3) = 24, yet the scan
only starts at row floor(60*0.45) = 27, so detectFooterBand returns the
band rows 27..59: y1 - y0 = 33, which differs from h = 40 by 7 > 1. -/
theorem c6_tall_band_counterexample :
    detectFooterBand (syntheticFooterRaw 1 60 40) 1 60 3 = some ⟨0, 27, 1, 60⟩ ∧
    max 24 (60 * 5 / 100) ≤ 40 ∧ 1 < ((60 - 27 : ℤ) - 40).natAbs := by
  refine ⟨by with_unfolding_all decide, by decide, by decide⟩

/-- C6, amended.  (a) For a synthetic bitmap whose bottom h rows are a
solid footer-coloured band, if minBandHeight <= h and the band lies
entirely at or below the scan start floor(0.45*height) (that is,
h <= height - floor(0.45*height)), detectFooterBand returns exactly the
band rows height-h .. height-1, so y1 - y0 = h (within 1 pixel of h);
the counterexample above shows the extra upper bound on h is necessary.
(b) Whenever no contiguous group of rows at or below the scan start
reaches ratio >= 0.28 at its first row, ratio >= 0.2 throughout, and
height >= minBandHeight, detectFooterBand returns null. -/
theorem c6_footer_band :
    (∀ width height h : ℕ, 1 ≤ width →
      max 24 (height * 5 / 100) ≤ h → h ≤ height - height * 45 / 100 →
      detectFooterBand (syntheticFooterRaw width height h) width height 3 =
        some ⟨width * 45 / 100, height - h, width, height⟩) ∧
    (∀ (raw : ℕ → ℕ) (width height channels : ℕ),
      (∀ a b, height * 45 / 100 ≤ a → a ≤ b → b < height →
        ¬(28/100 ≤ rowPurpleRatio raw width channels a ∧
          (∀ z, a ≤ z → z ≤ b → 1/5 ≤ rowPurpleRatio raw width channels z) ∧
          max 24 (height * 5 / 100) ≤ b + 1 - a)) →
      detectFooterBand raw width height channels = none) := by
  constructor
  · intro width height h hw hmin hle
    have hsY : height * 45 / 100 ≤ height := by omega
    have hh24 : 24 ≤ h := le_trans (le_max_left _ _) hmin
    have hhle : h ≤ height := by omega
    have hsyb : height * 45 / 100 ≤ height - h := by omega
    have hr := synth_ratio width height h hw
    have hlow : ∀ z, height * 45 / 100 ≤ z → z < height * 45 / 100 +
        (height - h - height * 45 / 100) →
        (fun v => rowPurpleRatio (syntheticFooterRaw width height h) width 3 v) z < 28/100 := by
      intro z _ hz2
      have : ¬ height - h ≤ z := by omega
      simp only [hr z, if_neg this]
      norm_num
    have hskip := scanBands_skip
      (fun v => rowPurpleRatio (syntheticFooterRaw width height h) width 3 v)
      height (max 24 (height * 5 / 100)) (height - h - height * 45 / 100)
      (height + 1 - (height - h - height * 45 / 100)) (height * 45 / 100) none hlow (by omega)
    have hfull : (takeRun
        (fun v => rowPurpleRatio (syntheticFooterRaw width height h) width 3 v)
        height (height - (height - h)) (height - h + 1)).1 = height := by
      refine takeRun_full _ height _ _ (by omega) (by omega) ?_
      intro z hz1 _
      have : height - h ≤ z := by omega
      simp only [hr z, if_pos this]
      norm_num
    have hhigh : ¬ (fun v => rowPurpleRatio (syntheticFooterRaw width height h) width 3 v)
        (height - h) < 28/100 := by
      have : height - h ≤ height - h := le_refl _
      simp only [hr (height - h), if_pos this]
      norm_num
    have hok : max 24 (height * 5 / 100) ≤ (takeRun
        (fun v => rowPurpleRatio (syntheticFooterRaw width height h) width 3 v)
        height (height - (height - h)) (height - h + 1)).1 - 1 - (height - h) + 1 := by
      rw [hfull]
      omega
    obtain ⟨sc, hentry⟩ := scanBands_entry_some
      (fun v => rowPurpleRatio (syntheticFooterRaw width height h) width 3 v)
      height (max 24 (height * 5 / 100))
      (height - (height - h - height * 45 / 100)) (height - h) (by omega) hhigh hok
    rw [hfull] at hentry
    have hchain : scanBands
        (fun v => rowPurpleRatio (syntheticFooterRaw width height h) width 3 v)
        height (max 24 (height * 5 / 100)) (height + 1) (height * 45 / 100) none =
        some (height - h, height - 1, sc) := by
      rw [show height + 1 = (height + 1 - (height - h - height * 45 / 100)) +
        (height - h - height * 45 / 100) by omega]
      rw [hskip]
      rw [show height * 45 / 100 + (height - h - height * 45 / 100) = height - h by omega]
      rw [show height + 1 - (height - h - height * 45 / 100) =
        (height - (height - h - height * 45 / 100)) + 1 by omega]
      rw [hentry]
      exact scanBands_stop _ height _ _ height _ (le_refl height)
    have hfin : height - 1 + 1 = height := by omega
    simp only [detectFooterBand, hchain, hfin]
  · intro raw width height channels H
    have hscan := scanBands_no_band
      (fun y => rowPurpleRatio raw width channels y) height (max 24 (height * 5 / 100))
      (height * 45 / 100) H (height + 1) (height * 45 / 100) (le_refl _)
    simp only [detectFooterBand, hscan]

/-- C6, witness: a 1x60 page with a 30-row solid footer band (within the
scanned region) yields exactly that band, and an all-white page yields
null. -/
theorem c6_footer_band_witness :
    detectFooterBand (syntheticFooterRaw 1 60 30) 1 60 3 = some ⟨0, 30, 1, 60⟩ ∧
    detectFooterBand (fun _ => 255) 1 60 3 = none := by
  constructor
  · exact c6_footer_band.1 1 60 30 (by norm_num) (by norm_num) (by norm_num)
  · refine c6_footer_band.2 (fun _ => 255) 1 60 3 ?_
    intro a b _ _ _
    rintro ⟨h1, -, -⟩
    have : rowPurpleRatio (fun _ => 255) 1 3 a = 0 := by
      unfold rowPurpleRatio
      simp [isPurplePixel]
    rw [this] at h1
    norm_num at h1

theorem countP_range (n : ℕ) (Q : ℕ → Bool) :
    (List.range n).countP Q = ∑ i ∈ Finset.range n, if Q i then 1 else 0 := by
  induction n with
  | zero => simp
  | succ m ih =>
    rw [List.range_succ, List.countP_append, Finset.sum_range_succ, ih]
    simp [List.countP_cons]

theorem countP_pixelPairs (w h : ℕ) (P : ℕ × ℕ → Bool) :
    (pixelPairs w h).countP P =
      ∑ ty ∈ Finset.range h, ∑ tx ∈ Finset.range w, if P (tx, ty) then 1 else 0 := by
  induction h with
  | zero => simp [pixelPairs]
  | succ m ih =>
    rw [pixelPairs, List.range_succ, List.flatMap_append, List.countP_append,
      Finset.sum_range_succ, ← pixelPairs, ih]
    congr 1
    rw [List.flatMap_singleton, List.countP_map, countP_range]
    rfl

theorem scoreCounts_eq (pageEdges : ℕ → Bool) (pageWidth x y : ℕ) (t : Template) :
    scoreCounts pageEdges pageWidth x y t =
      (overlapCount pageEdges pageWidth x y t (fun p q => p && q),
       overlapCount pageEdges pageWidth x y t (fun p q => p && !q),
       overlapCount pageEdges pageWidth x y t (fun p q => !p && q)) := by
  have hstep : ∀ (acc : ℕ × ℕ × ℕ) (p : ℕ × ℕ),
      countStep pageEdges pageWidth x y t acc p =
      (acc.1 + (if pageEdges ((y + p.2) * pageWidth + x + p.1) &&
          t.edges (p.2 * t.width + p.1) then 1 else 0),
       acc.2.1 + (if pageEdges ((y + p.2) * pageWidth + x + p.1) &&
          !t.edges (p.2 * t.width + p.1) then 1 else 0),
       acc.2.2 + (if !pageEdges ((y + p.2) * pageWidth + x + p.1) &&
          t.edges (p.2 * t.width + p.1) then 1 else 0)) := by
    intro acc p
    cases hpe : pageEdges ((y + p.2) * pageWidth + x + p.1) <;>
      cases hte : t.edges (p.2 * t.width + p.1) <;>
        simp [countStep, hpe, hte]
  have key : ∀ (L : List (ℕ × ℕ)) (a b c : ℕ),
      L.foldl (countStep pageEdges pageWidth x y t) (a, b, c) =
      (a + L.countP (fun p => pageEdges ((y + p.2) * pageWidth + x + p.1) &&
          t.edges (p.2 * t.width + p.1)),
       b + L.countP (fun p => pageEdges ((y + p.2) * pageWidth + x + p.1) &&
          !t.edges (p.2 * t.width + p.1)),
       c + L.countP (fun p => !pageEdges ((y + p.2) * pageWidth + x + p.1) &&
          t.edges (p.2 * t.width + p.1))) := by
    intro L
    induction L with
    | nil => intro a b c; simp
    | cons d L ih =>
      intro a b c
      rw [List.foldl_cons, hstep, ih, List.countP_cons, List.countP_cons, List.countP_cons]
      simp only [Prod.mk.injEq]
      refine ⟨by omega, by omega, by omega⟩
  have hand : overlapCount pageEdges pageWidth x y t (fun p q => p && q) =
      (pixelPairs t.width t.height).countP
        (fun p => pageEdges ((y + p.2) * pageWidth + x + p.1) &&
          t.edges (p.2 * t.width + p.1)) := by
    rw [overlapCount, countP_pixelPairs]
  have handn : overlapCount pageEdges pageWidth x y t (fun p q => p && !q) =
      (pixelPairs t.width t.height).countP
        (fun p => pageEdges ((y + p.2) * pageWidth + x + p.1) &&
          !t.edges (p.2 * t.width + p.1)) := by
    rw [overlapCount, countP_pixelPairs]
  have hnand : overlapCount pageEdges pageWidth x y t (fun p q => !p && q) =
      (pixelPairs t.width t.height).countP
        (fun p => !pageEdges ((y + p.2) * pageWidth + x + p.1) &&
          t.edges (p.2 * t.width + p.1)) := by
    rw [overlapCount, countP_pixelPairs]
  rw [scoreCounts, key, hand, handn, hnand]
  simp

/-- C2 helper: the loop-free score formula in terms of the declarative
overlap counts. -/
theorem scoreTemplateAt_formula (pageEdges : ℕ → Bool) (pageWidth x y : ℕ) (t : Template) :
    scoreTemplateAt pageEdges pageWidth x y t =
      ((overlapCount pageEdges pageWidth x y t (fun p q => p && q) : ℚ)) /
        ((overlapCount pageEdges pageWidth x y t (fun p q => p && q) : ℚ) +
          65/100 * (overlapCount pageEdges pageWidth x y t (fun p q => p && !q) : ℚ) +
          125/100 * (overlapCount pageEdges pageWidth x y t (fun p q => !p && q) : ℚ)) := by
  rw [scoreTemplateAt, scoreCounts_eq]
  set tp := overlapCount pageEdges pageWidth x y t (fun p q => p && q)
  set fp := overlapCount pageEdges pageWidth x y t (fun p q => p && !q)
  set fn := overlapCount pageEdges pageWidth x y t (fun p q => !p && q)
  by_cases hpos : (0 : ℚ) < (tp : ℚ) + 65/100 * (fp : ℚ) + 125/100 * (fn : ℚ)
  · rw [if_pos hpos]
  · rw [if_neg hpos]
    have hz : (tp : ℚ) + 65/100 * (fp : ℚ) + 125/100 * (fn : ℚ) = 0 := by
      have h1 : (0:ℚ) ≤ (tp : ℚ) := Nat.cast_nonneg tp
      have h2 : (0:ℚ) ≤ (fp : ℚ) := Nat.cast_nonneg fp
      have h3 : (0:ℚ) ≤ (fn : ℚ) := Nat.cast_nonneg fn
      push_neg at hpos
      nlinarith
    rw [hz, div_zero]

theorem scoreTemplateAt_le_one (pageEdges : ℕ → Bool) (pageWidth x y : ℕ) (t : Template) :
    scoreTemplateAt pageEdges pageWidth x y t ≤ 1 := by
  rw [scoreTemplateAt]
  set c := scoreCounts pageEdges pageWidth x y t
  by_cases hpos : (0 : ℚ) < (c.1 : ℚ) + 65/100 * (c.2.1 : ℚ) + 125/100 * (c.2.2 : ℚ)
  · rw [if_pos hpos, div_le_one hpos]
    have h2 : (0:ℚ) ≤ (c.2.1 : ℚ) := Nat.cast_nonneg _
    have h3 : (0:ℚ) ≤ (c.2.2 : ℚ) := Nat.cast_nonneg _
    nlinarith
  · rw [if_neg hpos]
    norm_num

theorem score_eq_one_fn_zero (pageEdges : ℕ → Bool) (pageWidth x y : ℕ) (t : Template)
    (hone : scoreTemplateAt pageEdges pageWidth x y t = 1) :
    overlapCount pageEdges pageWidth x y t (fun p q => !p && q) = 0 := by
  rw [scoreTemplateAt_formula] at hone
  set tp := overlapCount pageEdges pageWidth x y t (fun p q => p && q) with htp
  set fp := overlapCount pageEdges pageWidth x y t (fun p q => p && !q) with hfp
  set fn := overlapCount pageEdges pageWidth x y t (fun p q => !p && q) with hfn
  have h1 : (0:ℚ) ≤ (tp : ℚ) := Nat.cast_nonneg tp
  have h2 : (0:ℚ) ≤ (fp : ℚ) := Nat.cast_nonneg fp
  have h3 : (0:ℚ) ≤ (fn : ℚ) := Nat.cast_nonneg fn
  by_cases hpos : (0 : ℚ) < (tp : ℚ) + 65/100 * (fp : ℚ) + 125/100 * (fn : ℚ)
  · have heq : (tp : ℚ) = (tp : ℚ) + 65/100 * (fp : ℚ) + 125/100 * (fn : ℚ) := by
      have h := (div_eq_iff hpos.ne').mp hone
      linarith [h]
    have : (fn : ℚ) = 0 := by nlinarith
    exact_mod_cast this
  · push_neg at hpos
    have hz : (tp : ℚ) + 65/100 * (fp : ℚ) + 125/100 * (fn : ℚ) = 0 := by nlinarith
    rw [hz, div_zero] at hone
    norm_num at hone

theorem embedPage_window (t : Template) (W px py : ℕ) (hW : px + t.width ≤ W)
    (tx ty : ℕ) (htx : tx < t.width) (hty : ty < t.height) :
    embedPage t W px py ((py + ty) * W + px + tx) = t.edges (ty * t.width + tx) := by
  have hWpos : 0 < W := by omega
  have hxW : px + tx < W := by omega
  have hsplit : (py + ty) * W + px + tx = (px + tx) + W * (py + ty) := by ring
  have hmod : ((py + ty) * W + px + tx) % W = px + tx := by
    rw [hsplit, Nat.add_mul_mod_self_left, Nat.mod_eq_of_lt hxW]
  have hdiv : ((py + ty) * W + px + tx) / W = py + ty := by
    rw [hsplit, Nat.add_mul_div_left _ _ hWpos, Nat.div_eq_of_lt hxW, Nat.zero_add]
  simp only [embedPage, hmod, hdiv]
  rw [decide_eq_true (by omega : px ≤ px + tx),
    decide_eq_true (by omega : px + tx < px + t.width),
    decide_eq_true (by omega : py ≤ py + ty),
    decide_eq_true (by omega : py + ty < py + t.height)]
  simp only [Bool.true_and]
  rw [Nat.add_sub_cancel_left, Nat.add_sub_cancel_left]

theorem overlapCount_congr (pe pe' : ℕ → Bool) (pw x y : ℕ) (t : Template)
    (sel : Bool → Bool → Bool)
    (h : ∀ tx ty, tx < t.width → ty < t.height →
      pe ((y + ty) * pw + x + tx) = pe' ((y + ty) * pw + x + tx)) :
    overlapCount pe pw x y t sel = overlapCount pe' pw x y t sel := by
  unfold overlapCount
  refine Finset.sum_congr rfl fun ty hty => Finset.sum_congr rfl fun tx htx => ?_
  rw [h tx ty (Finset.mem_range.mp htx) (Finset.mem_range.mp hty)]

theorem overlapCount_edges_card (pe : ℕ → Bool) (pw x y : ℕ) (t : Template)
    (sel : Bool → Bool → Bool)
    (h : ∀ tx ty, tx < t.width → ty < t.height →
      sel (pe ((y + ty) * pw + x + tx)) (t.edges (ty * t.width + tx)) =
        t.edges (ty * t.width + tx)) :
    overlapCount pe pw x y t sel = (templateEdgeFinset t).card := by
  rw [templateEdgeFinset, Finset.card_filter, Finset.sum_product, overlapCount,
    Finset.sum_comm]
  refine Finset.sum_congr rfl fun tx htx => Finset.sum_congr rfl fun ty hty => ?_
  rw [h tx ty (Finset.mem_range.mp htx) (Finset.mem_range.mp hty)]

theorem overlapCount_zero (pe : ℕ → Bool) (pw x y : ℕ) (t : Template)
    (sel : Bool → Bool → Bool)
    (h : ∀ tx ty, tx < t.width → ty < t.height →
      sel (pe ((y + ty) * pw + x + tx)) (t.edges (ty * t.width + tx)) = false) :
    overlapCount pe pw x y t sel = 0 := by
  unfold overlapCount
  refine Finset.sum_eq_zero fun ty hty => Finset.sum_eq_zero fun tx htx => ?_
  rw [h tx ty (Finset.mem_range.mp htx) (Finset.mem_range.mp hty)]
  simp

theorem scoreTemplateAt_embed (t : Template) (W px py : ℕ) (hW : px + t.width ≤ W)
    (hne : 0 < (templateEdgeFinset t).card) :
    scoreTemplateAt (embedPage t W px py) W px py t = 1 := by
  have hwin := embedPage_window t W px py hW
  have htp : overlapCount (embedPage t W px py) W px py t (fun p q => p && q) =
      (templateEdgeFinset t).card := by
    refine overlapCount_edges_card _ _ _ _ _ _ fun tx ty htx hty => ?_
    rw [hwin tx ty htx hty, Bool.and_self]
  have hfp : overlapCount (embedPage t W px py) W px py t (fun p q => p && !q) = 0 := by
    refine overlapCount_zero _ _ _ _ _ _ fun tx ty htx hty => ?_
    rw [hwin tx ty htx hty]
    cases t.edges (ty * t.width + tx) <;> rfl
  have hfn : overlapCount (embedPage t W px py) W px py t (fun p q => !p && q) = 0 := by
    refine overlapCount_zero _ _ _ _ _ _ fun tx ty htx hty => ?_
    rw [hwin tx ty htx hty]
    cases t.edges (ty * t.width + tx) <;> rfl
  rw [scoreTemplateAt_formula, htp, hfp, hfn]
  have hcast : (0 : ℚ) < ((templateEdgeFinset t).card : ℚ) := by exact_mod_cast hne
  field_simp

/-- The closure step extracted from a perfectly matching window: every
template edge pixel, translated to window position (x, y), lands on an
embedded edge pixel, hence on a template edge pixel translated to
(px, py). -/
theorem embed_cover_closure (t : Template) (W px py x y : ℕ)
    (hxW : x + t.width ≤ W)
    (hcov : ∀ tx ty, tx < t.width → ty < t.height → t.edges (ty * t.width + tx) = true →
      embedPage t W px py ((y + ty) * W + x + tx) = true) :
    ∀ q ∈ templateEdgeFinset t, ∃ q' ∈ templateEdgeFinset t,
      x + q.1 = px + q'.1 ∧ y + q.2 = py + q'.2 := by
  rintro ⟨tx, ty⟩ hq
  rw [templateEdgeFinset, Finset.mem_filter, Finset.mem_product,
    Finset.mem_range, Finset.mem_range] at hq
  obtain ⟨⟨htx, hty⟩, hedge⟩ := hq
  have hWpos : 0 < W := by omega
  have hxtW : x + tx < W := by omega
  have hemb := hcov tx ty htx hty hedge
  rw [show (y + ty) * W + x + tx = (x + tx) + W * (y + ty) by ring] at hemb
  simp only [embedPage] at hemb
  rw [Nat.add_mul_mod_self_left, Nat.mod_eq_of_lt hxtW,
    Nat.add_mul_div_left _ _ hWpos, Nat.div_eq_of_lt hxtW, Nat.zero_add] at hemb
  rw [Bool.and_assoc, Bool.and_assoc, Bool.and_assoc] at hemb
  have h1 : px ≤ x + tx := by
    by_contra hcon
    rw [decide_eq_false (by omega : ¬ px ≤ x + tx)] at hemb
    simp at hemb
  rw [decide_eq_true h1, Bool.true_and] at hemb
  have h2 : x + tx < px + t.width := by
    by_contra hcon
    rw [decide_eq_false hcon] at hemb
    simp at hemb
  rw [decide_eq_true h2, Bool.true_and] at hemb
  have h3 : py ≤ y + ty := by
    by_contra hcon
    rw [decide_eq_false hcon] at hemb
    simp at hemb
  rw [decide_eq_true h3, Bool.true_and] at hemb
  have h4 : y + ty < py + t.height := by
    by_contra hcon
    rw [decide_eq_false hcon] at hemb
    simp at hemb
  rw [decide_eq_true h4, Bool.true_and] at hemb
  refine ⟨(x + tx - px, y + ty - py), ?_, by omega, by omega⟩
  rw [templateEdgeFinset, Finset.mem_filter, Finset.mem_product,
    Finset.mem_range, Finset.mem_range]
  refine ⟨⟨by omega, by omega⟩, ?_⟩
  show t.edges ((y + ty - py) * t.width + (x + tx - px)) = true
  exact hemb

/-- A translated copy of the edge set can only cover itself at the same
translation: the extremal edge pixel rules out every other offset. -/
theorem embed_cover_unique (t : Template) (W px py x y : ℕ)
    (hne : (templateEdgeFinset t).Nonempty)
    (hxW : x + t.width ≤ W)
    (hcov : ∀ tx ty, tx < t.width → ty < t.height → t.edges (ty * t.width + tx) = true →
      embedPage t W px py ((y + ty) * W + x + tx) = true) :
    x = px ∧ y = py := by
  have hclos := embed_cover_closure t W px py x y hxW hcov
  rcases Nat.lt_trichotomy x px with hx | hx | hx
  · exfalso
    obtain ⟨q, hq, hqmin⟩ := Finset.exists_min_image (templateEdgeFinset t) Prod.fst hne
    obtain ⟨q', hq', he1, _⟩ := hclos q hq
    have : q'.1 < q.1 := by omega
    exact absurd (hqmin q' hq') (by omega)
  · rcases Nat.lt_trichotomy y py with hy | hy | hy
    · exfalso
      obtain ⟨q, hq, hqmin⟩ := Finset.exists_min_image (templateEdgeFinset t) Prod.snd hne
      obtain ⟨q', hq', _, he2⟩ := hclos q hq
      have : q'.2 < q.2 := by omega
      exact absurd (hqmin q' hq') (by omega)
    · exact ⟨hx, hy⟩
    · exfalso
      obtain ⟨q, hq, hqmax⟩ := Finset.exists_max_image (templateEdgeFinset t) Prod.snd hne
      obtain ⟨q', hq', _, he2⟩ := hclos q hq
      have : q.2 < q'.2 := by omega
      exact absurd (hqmax q' hq') (by omega)
  · exfalso
    obtain ⟨q, hq, hqmax⟩ := Finset.exists_max_image (templateEdgeFinset t) Prod.fst hne
    obtain ⟨q', hq', he1, _⟩ := hclos q hq
    have : q.1 < q'.1 := by omega
    exact absurd (hqmax q' hq') (by omega)

theorem fn_zero_cover (pe : ℕ → Bool) (pw x y : ℕ) (t : Template)
    (hfn : overlapCount pe pw x y t (fun p q => !p && q) = 0) :
    ∀ tx ty, tx < t.width → ty < t.height → t.edges (ty * t.width + tx) = true →
      pe ((y + ty) * pw + x + tx) = true := by
  intro tx ty htx hty hedge
  unfold overlapCount at hfn
  rw [Finset.sum_eq_zero_iff] at hfn
  have h1 := hfn ty (Finset.mem_range.mpr hty)
  rw [Finset.sum_eq_zero_iff] at h1
  have h2 := h1 tx (Finset.mem_range.mpr htx)
  cases hpe : pe ((y + ty) * pw + x + tx)
  · rw [hpe, hedge] at h2
    simp at h2
  · rfl

theorem foldl_bestStep_keeps (pe : ℕ → Bool) (pw : ℕ) (t : Template)
    (L : List (ℕ × ℕ)) (tgt : MatchBest) (htgt : tgt.score = 1)
    (hle : ∀ p ∈ L, scoreTemplateAt pe pw p.1 p.2 t ≤ 1) :
    L.foldl (bestStep pe pw t) tgt = tgt := by
  induction L with
  | nil => rfl
  | cons d L ih =>
    rw [List.foldl_cons]
    have hstep : bestStep pe pw t tgt d = tgt := by
      rw [bestStep]
      rw [if_neg]
      rw [htgt]
      exact not_lt.mpr (hle d (List.mem_cons_self d L))
    rw [hstep]
    exact ih fun p hp => hle p (List.mem_cons_of_mem d hp)

theorem foldl_bestStep_reaches (pe : ℕ → Bool) (pw : ℕ) (t : Template)
    (L : List (ℕ × ℕ)) (px py : ℕ)
    (hmem : (px, py) ∈ L)
    (hle : ∀ p ∈ L, scoreTemplateAt pe pw p.1 p.2 t ≤ 1)
    (hlt : ∀ p ∈ L, p ≠ (px, py) → scoreTemplateAt pe pw p.1 p.2 t < 1)
    (hone : scoreTemplateAt pe pw px py t = 1) :
    ∀ init : MatchBest, init.score < 1 →
      L.foldl (bestStep pe pw t) init =
        ⟨1, some ⟨px, py, t.width, t.height⟩, some t.refName⟩ := by
  induction L with
  | nil => cases hmem
  | cons d L ih =>
    intro init hinit
    rw [List.foldl_cons]
    by_cases hd : d = (px, py)
    · subst hd
      have hstep : bestStep pe pw t init (px, py) =
          ⟨1, some ⟨px, py, t.width, t.height⟩, some t.refName⟩ := by
        rw [bestStep]
        show (if init.score < scoreTemplateAt pe pw px py t then _ else _) = _
        rw [hone, if_pos hinit]
      rw [hstep]
      exact foldl_bestStep_keeps pe pw t L _ rfl
        fun p hp => hle p (List.mem_cons_of_mem _ hp)
    · have hdlt : scoreTemplateAt pe pw d.1 d.2 t < 1 :=
        hlt d (List.mem_cons_self d L) hd
      have hb : (bestStep pe pw t init d).score < 1 := by
        rw [bestStep]
        split
        · exact hdlt
        · exact hinit
      have hmem' : (px, py) ∈ L := by
        rcases List.mem_cons.mp hmem with h | h
        · exact absurd h.symm hd
        · exact h
      exact ih hmem' (fun p hp => hle p (List.mem_cons_of_mem _ hp))
        (fun p hp => hlt p (List.mem_cons_of_mem _ hp)) _ hb

theorem mem_stepPositions (start stop v k : ℕ) (hv : v = start + 3 * k) (hle : v ≤ stop) :
    v ∈ stepPositions start stop := by
  unfold stepPositions
  rw [if_pos (by omega : start ≤ stop)]
  refine List.mem_map.mpr ⟨k, List.mem_range.mpr ?_, hv.symm⟩
  have h3 : k * 3 ≤ stop - start := by omega
  have hk : k ≤ (stop - start) / 3 := (Nat.le_div_iff_mul_le (by norm_num)).mpr h3
  omega

theorem stepPositions_spec (start stop v : ℕ) (hv : v ∈ stepPositions start stop) :
    v ≤ stop := by
  unfold stepPositions at hv
  by_cases hss : start ≤ stop
  · rw [if_pos hss] at hv
    obtain ⟨k, hk, rfl⟩ := List.mem_map.mp hv
    have hk' := List.mem_range.mp hk
    have : k ≤ (stop - start) / 3 := by omega
    have h2 : k * 3 ≤ stop - start := (Nat.le_div_iff_mul_le (by norm_num)).mp this
    omega
  · rw [if_neg hss] at hv
    cases hv

theorem mem_zoneCandidates (z : Zone) (tW tH px py i j : ℕ)
    (hgx : z.x0 + tW < z.x1) (hgy : z.y0 + tH < z.y1)
    (hpx : px = z.x0 + 3 * i) (hpy : py = z.y0 + 3 * j)
    (hxb : px + tW ≤ z.x1) (hyb : py + tH ≤ z.y1) :
    (px, py) ∈ zoneCandidates z tW tH := by
  unfold zoneCandidates
  rw [if_neg (by push_neg; omega)]
  exact List.mem_flatMap.mpr ⟨py, mem_stepPositions _ _ _ j hpy (by omega),
    List.mem_map.mpr ⟨px, mem_stepPositions _ _ _ i hpx (by omega), rfl⟩⟩

theorem zoneCandidates_bounds (z : Zone) (tW tH : ℕ) (p : ℕ × ℕ)
    (hp : p ∈ zoneCandidates z tW tH) : p.1 + tW ≤ z.x1 ∧ p.2 + tH ≤ z.y1 := by
  unfold zoneCandidates at hp
  by_cases hguard : z.x1 - tW ≤ z.x0 ∨ z.y1 - tH ≤ z.y0
  · rw [if_pos hguard] at hp
    cases hp
  · rw [if_neg hguard] at hp
    push_neg at hguard
    obtain ⟨y, hy, hmem⟩ := List.mem_flatMap.mp hp
    obtain ⟨x, hx, rfl⟩ := List.mem_map.mp hmem
    have h1 := stepPositions_spec _ _ _ hx
    have h2 := stepPositions_spec _ _ _ hy
    exact ⟨by omega, by omega⟩

set_option maxRecDepth 40000 in
/-- C2, counterexample.  The claim quantifies over every placement
position inside the search zone, but the scanner only visits positions
stepped by 3 pixels from the zone origin.  With a 5x5 all-edge template
embedded at (1, 1) of an otherwise edge-free 20x20 page and the search
zone (0,0)-(20,20), position (1,1) is never scanned: the detector
returns a best score below 1.0 at a different bbox. -/
theorem c2_off_grid_counterexample :
    (detectLogoByTemplateMatch
      (embedPage ⟨"ref.png", 5, 5, fun _ => true⟩ 20 1 1) 20 20
      [⟨"ref.png", 5, 5, fun _ => true⟩] (some ⟨0, 0, 20, 20⟩)).score ≠ 1 ∧
    (detectLogoByTemplateMatch
      (embedPage ⟨"ref.png", 5, 5, fun _ => true⟩ 20 1 1) 20 20
      [⟨"ref.png", 5, 5, fun _ => true⟩] (some ⟨0, 0, 20, 20⟩)).bboxPx ≠
        some ⟨1, 1, 5, 5⟩ ∧
    1 + 5 ≤ 20 ∧ (1 + 5 ≤ 20 ∧ 0 + 5 < 20) := by
  refine ⟨by with_unfolding_all decide, by with_unfolding_all decide, by decide, by decide⟩

/-- C2, amended.  (a) At every window position the score equals
tp / (tp + 0.65*fp + 1.25*fn) over the declarative edge-pixel overlap
counts (with the convention score 0 when the denominator vanishes, as
0/0 = 0 in Lean's rationals).  (b) For every template with at least one
edge pixel and every placement position reachable by the scanner's
3-pixel stride from the zone origin (px = x0+3i, py = y0+3j, template
fitting inside the zone, zone inside the page, and the zone passing the
`maxX > x0` / `maxY > y0` guard), embedding the template's own edges
verbatim at that position into an otherwise edge-free page makes
detectLogoByTemplateMatch return score 1.0 with exactly that bounding
box and reference name; the counterexample above shows the stride
restriction is necessary. -/
theorem c2_template_match :
    (∀ (pageEdges : ℕ → Bool) (pageWidth x y : ℕ) (t : Template),
      scoreTemplateAt pageEdges pageWidth x y t =
        ((overlapCount pageEdges pageWidth x y t (fun p q => p && q) : ℚ)) /
          ((overlapCount pageEdges pageWidth x y t (fun p q => p && q) : ℚ) +
            65/100 * (overlapCount pageEdges pageWidth x y t (fun p q => p && !q) : ℚ) +
            125/100 * (overlapCount pageEdges pageWidth x y t (fun p q => !p && q) : ℚ))) ∧
    (∀ (t : Template) (z : Zone) (W H px py i j : ℕ),
      (templateEdgeFinset t).Nonempty →
      z.x0 + t.width < z.x1 → z.y0 + t.height < z.y1 → z.x1 ≤ W →
      px = z.x0 + 3 * i → py = z.y0 + 3 * j →
      px + t.width ≤ z.x1 → py + t.height ≤ z.y1 →
      detectLogoByTemplateMatch (embedPage t W px py) W H [t] (some z) =
        ⟨1, some ⟨px, py, t.width, t.height⟩, some t.refName⟩) := by
  constructor
  · exact scoreTemplateAt_formula
  · intro t z W H px py i j hne hgx hgy hWz hpx hpy hxb hyb
    have hpxW : px + t.width ≤ W := le_trans hxb hWz
    show (zoneCandidates z t.width t.height).foldl
      (bestStep (embedPage t W px py) W t)
      { score := 0, bboxPx := none, matchedReference := none } =
      ⟨1, some ⟨px, py, t.width, t.height⟩, some t.refName⟩
    refine foldl_bestStep_reaches (embedPage t W px py) W t
      (zoneCandidates z t.width t.height) px py
      (mem_zoneCandidates z t.width t.height px py i j hgx hgy hpx hpy hxb hyb)
      (fun p _ => scoreTemplateAt_le_one _ _ _ _ _)
      ?_
      (scoreTemplateAt_embed t W px py hpxW (Finset.card_pos.mpr hne))
      _ (by norm_num)
    intro p hp hne'
    rcases lt_or_eq_of_le (scoreTemplateAt_le_one (embedPage t W px py) W p.1 p.2 t)
      with h | h
    · exact h
    · exfalso
      have hfn := score_eq_one_fn_zero (embedPage t W px py) W p.1 p.2 t h
      have hcov := fn_zero_cover (embedPage t W px py) W p.1 p.2 t hfn
      have hbounds := zoneCandidates_bounds z t.width t.height p hp
      have heq := embed_cover_unique t W px py p.1 p.2 hne
        (le_trans hbounds.1 hWz) hcov
      exact hne' (Prod.ext heq.1 heq.2)

/-- C2, witness: a 1x1 single-edge template embedded at the grid
position (3, 3) of a 9x9 page with zone (0,0)-(9,9) is found with score
1.0 at exactly that box. -/
theorem c2_template_match_witness :
    detectLogoByTemplateMatch
      (embedPage ⟨"w.png", 1, 1, fun _ => true⟩ 9 3 3) 9 9
      [⟨"w.png", 1, 1, fun _ => true⟩] (some ⟨0, 0, 9, 9⟩) =
      ⟨1, some ⟨3, 3, 1, 1⟩, some "w.png"⟩ ∧
    scoreTemplateAt (fun _ => false) 4 0 0 ⟨"w.png", 1, 1, fun _ => true⟩ =
      ((overlapCount (fun _ => false) 4 0 0 ⟨"w.png", 1, 1, fun _ => true⟩
          (fun p q => p && q) : ℚ)) /
        ((overlapCount (fun _ => false) 4 0 0 ⟨"w.png", 1, 1, fun _ => true⟩
            (fun p q => p && q) : ℚ) +
          65/100 * (overlapCount (fun _ => false) 4 0 0 ⟨"w.png", 1, 1, fun _ => true⟩
            (fun p q => p && !q) : ℚ) +
          125/100 * (overlapCount (fun _ => false) 4 0 0 ⟨"w.png", 1, 1, fun _ => true⟩
            (fun p q => !p && q) : ℚ)) := by
  constructor
  · exact c2_template_match.2 ⟨"w.png", 1, 1, fun _ => true⟩ ⟨0, 0, 9, 9⟩ 9 9 3 3 1 1
      ⟨(0, 0), by with_unfolding_all decide⟩
      (by norm_num) (by norm_num) (by norm_num) (by norm_num) (by norm_num)
      (by norm_num) (by norm_num)
  · exact c2_template_match.1 (fun _ => false) 4 0 0 ⟨"w.png", 1, 1, fun _ => true⟩

theorem sortByQuality_cons (d : VCandidate) (l : List VCandidate) :
    sortByQuality (d :: l) = insertByQuality d (sortByQuality l) := rfl

theorem mem_insertByQuality (c x : VCandidate) (l : List VCandidate)
    (hx : x ∈ insertByQuality c l) : x = c ∨ x ∈ l := by
  induction l with
  | nil => simpa [insertByQuality] using hx
  | cons d rest ih =>
    rw [insertByQuality] at hx
    split at hx
    · rcases List.mem_cons.mp hx with h | h
      · exact Or.inr (h ▸ List.mem_cons_self d rest)
      · rcases ih h with h' | h'
        · exact Or.inl h'
        · exact Or.inr (List.mem_cons_of_mem d h')
    · rcases List.mem_cons.mp hx with h | h
      · exact Or.inl h
      · exact Or.inr h

theorem mem_sortByQuality (x : VCandidate) (l : List VCandidate)
    (hx : x ∈ sortByQuality l) : x ∈ l := by
  induction l with
  | nil => simpa [sortByQuality] using hx
  | cons d rest ih =>
    rw [sortByQuality_cons] at hx
    rcases mem_insertByQuality _ _ _ hx with h | h
    · exact h ▸ List.mem_cons_self d rest
    · exact List.mem_cons_of_mem d (ih h)

theorem self_mem_insertByQuality (c : VCandidate) (l : List VCandidate) :
    c ∈ insertByQuality c l := by
  induction l with
  | nil => exact List.mem_singleton.mpr rfl
  | cons d rest ih =>
    rw [insertByQuality]
    split
    · exact List.mem_cons_of_mem d ih
    · exact List.mem_cons_self c _

theorem mem_insertByQuality_of_mem (c x : VCandidate) (l : List VCandidate)
    (hx : x ∈ l) : x ∈ insertByQuality c l := by
  induction l with
  | nil => cases hx
  | cons d rest ih =>
    rw [insertByQuality]
    split
    · rcases List.mem_cons.mp hx with h | h
      · exact h ▸ List.mem_cons_self d _
      · exact List.mem_cons_of_mem d (ih h)
    · exact List.mem_cons_of_mem c hx

theorem mem_sortByQuality_of_mem (x : VCandidate) (l : List VCandidate)
    (hx : x ∈ l) : x ∈ sortByQuality l := by
  induction l with
  | nil => cases hx
  | cons d rest ih =>
    rw [sortByQuality_cons]
    rcases List.mem_cons.mp hx with h | h
    · exact h ▸ self_mem_insertByQuality d _
    · exact mem_insertByQuality_of_mem d x _ (ih h)

theorem length_insertByQuality (c : VCandidate) (l : List VCandidate) :
    (insertByQuality c l).length = l.length + 1 := by
  induction l with
  | nil => rfl
  | cons d rest ih =>
    rw [insertByQuality]
    split
    · simp [ih]
    · simp

theorem length_sortByQuality (l : List VCandidate) :
    (sortByQuality l).length = l.length := by
  induction l with
  | nil => rfl
  | cons d rest ih => rw [sortByQuality_cons, length_insertByQuality, ih, List.length_cons]

theorem detectVision_found (items : List JsValue) (best : VCandidate)
    (rest : List VCandidate) (hs : sortByQuality (survivors items) = best :: rest) :
    detectLogoWithVision items =
      { found := true, confidence := best.confidence, bbox := best.bbox,
        matchedReference := best.matchedReference } := by
  unfold detectLogoWithVision
  rw [hs]

theorem detectVision_empty (items : List JsValue)
    (hs : sortByQuality (survivors items) = []) :
    detectLogoWithVision items = visionNotFound := by
  unfold detectLogoWithVision
  rw [hs]

theorem jsClampNaN_unit (v : Option ℚ) (q : ℚ) (h : jsClampNaN v 0 1 = some q) :
    0 ≤ q ∧ q ≤ 1 := by
  cases v with
  | none => simp [jsClampNaN] at h
  | some r =>
    simp only [jsClampNaN, Option.map_some', Option.some.injEq] at h
    subst h
    exact ⟨le_max_left _ _, max_le (by norm_num) (min_le_left _ _)⟩

theorem mkCandidate_confidence_unit (item : JsValue) (q : ℚ)
    (h : (mkCandidate item).confidence = some q) : 0 ≤ q ∧ q ≤ 1 :=
  jsClampNaN_unit _ q h

theorem mkCandidate_bbox_unit (item : JsValue) (b : VBbox) (q : ℚ)
    (h : (mkCandidate item).bbox = some b)
    (hq : b.x = some q ∨ b.y = some q ∨ b.width = some q ∨ b.height = some q) :
    0 ≤ q ∧ q ≤ 1 := by
  rw [mkCandidate] at h
  split at h
  · rw [Option.some.injEq] at h
    subst h
    rcases hq with hq | hq | hq | hq <;> exact jsClampNaN_unit _ q hq
  · cases h

/-- C4, counterexample.  The reply text
{"found":true,"confidence":{},"bbox":{...}} is valid JSON, so it is not
malformed; but Number({}) is NaN and JS Math.max(0, Math.min(1, NaN)) is
NaN, so the adapter's result has found=true with a NaN confidence, which
does not lie in [0,1] (none models NaN). -/
theorem c4_nan_confidence_counterexample :
    (detectLogoWithVision c4BadReply).found = true ∧
    (detectLogoWithVision c4BadReply).confidence = none := by
  exact ⟨by with_unfolding_all decide, by with_unfolding_all decide⟩

/-- C4, amended.  For every parsed classifier reply (every list of
salvaged JSON values; parseVisionDetections returns the empty list on
malformed or unparseable text), whenever the result's confidence is an
actual number it lies in [0,1], and whenever a bbox is present each of
its numeric coordinates lies in [0,1]; a NaN produced by coercing a
non-numeric field passes through the clamp, as the counterexample
shows.  An empty candidate list degrades to found=false with confidence
0 and null bbox, not a thrown error (the model is total). -/
theorem c4_vision_parse_clamping :
    (∀ (items : List JsValue) (q : ℚ),
      (detectLogoWithVision items).confidence = some q → 0 ≤ q ∧ q ≤ 1) ∧
    (∀ (items : List JsValue) (b : VBbox) (q : ℚ),
      (detectLogoWithVision items).bbox = some b →
      (b.x = some q ∨ b.y = some q ∨ b.width = some q ∨ b.height = some q) →
      0 ≤ q ∧ q ≤ 1) ∧
    detectLogoWithVision [] = visionNotFound := by
  refine ⟨?_, ?_, rfl⟩
  · intro items q h
    cases hs : sortByQuality (survivors items) with
    | nil =>
      rw [detectVision_empty items hs] at h
      rw [visionNotFound] at h
      rw [Option.some.injEq] at h
      subst h
      norm_num
    | cons best rest =>
      rw [detectVision_found items best rest hs] at h
      have hbmem : best ∈ survivors items :=
        mem_sortByQuality _ _ (hs ▸ List.mem_cons_self best rest)
      have hmap : best ∈ items.map mkCandidate := List.mem_of_mem_filter hbmem
      obtain ⟨it, _, rfl⟩ := List.mem_map.mp hmap
      exact mkCandidate_confidence_unit it q h
  · intro items b q h hq
    cases hs : sortByQuality (survivors items) with
    | nil =>
      rw [detectVision_empty items hs] at h
      rw [visionNotFound] at h
      cases h
    | cons best rest =>
      rw [detectVision_found items best rest hs] at h
      have hbmem : best ∈ survivors items :=
        mem_sortByQuality _ _ (hs ▸ List.mem_cons_self best rest)
      have hmap : best ∈ items.map mkCandidate := List.mem_of_mem_filter hbmem
      obtain ⟨it, _, rfl⟩ := List.mem_map.mp hmap
      exact mkCandidate_bbox_unit it b q h hq

/-- C4, witness: a candidate with numeric fields gets both bounds, and
the empty reply degrades. -/
theorem c4_vision_parse_witness :
    (0 ≤ (8:ℚ)/10 ∧ (8:ℚ)/10 ≤ 1) ∧ detectLogoWithVision [] = visionNotFound := by
  refine ⟨c4_vision_parse_clamping.1 c10GoodReply (8/10) ?_,
    c4_vision_parse_clamping.2.2⟩
  with_unfolding_all decide

theorem sorted_insertByQuality (c : VCandidate) (l : List VCandidate)
    (hc : (qualityKey c).isSome) (hl : ∀ d ∈ l, (qualityKey d).isSome)
    (hs : List.Sorted (fun a b => (qualityKey b).getD 0 ≤ (qualityKey a).getD 0) l) :
    List.Sorted (fun a b => (qualityKey b).getD 0 ≤ (qualityKey a).getD 0)
      (insertByQuality c l) := by
  induction l with
  | nil => simp [insertByQuality]
  | cons d rest ih =>
    obtain ⟨kc, hkc⟩ := Option.isSome_iff_exists.mp hc
    obtain ⟨kd, hkd⟩ := Option.isSome_iff_exists.mp (hl d (List.mem_cons_self d rest))
    rw [List.sorted_cons] at hs
    rw [insertByQuality]
    split
    · next hgt =>
      rw [List.sorted_cons]
      constructor
      · intro x hx
        rcases mem_insertByQuality c x rest hx with rfl | hmem
        · simp only [keyGt, hkc, hkd, decide_eq_true_eq] at hgt
          rw [hkc, hkd]
          simp only [Option.getD_some]
          exact hgt.le
        · exact hs.1 x hmem
      · exact ih (fun e he => hl e (List.mem_cons_of_mem d he)) hs.2
    · next hgt =>
      rw [List.sorted_cons]
      constructor
      · intro x hx
        have hdc : (qualityKey d).getD 0 ≤ (qualityKey c).getD 0 := by
          simp only [keyGt, hkc, hkd, decide_eq_true_eq] at hgt
          rw [hkc, hkd]
          simp only [Option.getD_some]
          exact not_lt.mp hgt
        rcases List.mem_cons.mp hx with rfl | hmem
        · exact hdc
        · exact le_trans (hs.1 x hmem) hdc
      · exact List.sorted_cons.mpr hs

theorem sorted_sortByQuality (l : List VCandidate)
    (hl : ∀ d ∈ l, (qualityKey d).isSome) :
    List.Sorted (fun a b => (qualityKey b).getD 0 ≤ (qualityKey a).getD 0)
      (sortByQuality l) := by
  induction l with
  | nil => simp [sortByQuality]
  | cons d rest ih =>
    rw [sortByQuality_cons]
    exact sorted_insertByQuality d (sortByQuality rest)
      (hl d (List.mem_cons_self d rest))
      (fun e he => hl e (List.mem_cons_of_mem d (mem_sortByQuality e rest he)))
      (ih fun e he => hl e (List.mem_cons_of_mem d he))

/-- C7, counterexample.  In the two-candidate reply c7NanReply both
candidates survive the filter; the first has key NaN (confidence is a
JSON object, Number({}) = NaN) and the second key 0.91.  The comparator
NaN is treated as 0 by Array.prototype.sort, so the stable sort keeps
the NaN candidate first and the adapter returns it, although its key is
NaN and certainly not ≥ 0.91: the returned candidate does not maximize
confidence + 0.1*bbox.x over the survivors. -/
theorem c7_nan_sort_counterexample :
    ((survivors c7NanReply).map qualityKey) = [none, some (91/100)] ∧
    qualityKey (detectLogoWithVision c7NanReply) = none ∧
    (detectLogoWithVision c7NanReply).bbox =
      some ⟨some (9/10), some (9/10), some (1/10), some (1/10)⟩ := by
  refine ⟨by with_unfolding_all decide, by with_unfolding_all decide,
    by with_unfolding_all decide⟩

/-- C7, amended.  Whenever more than one candidate survives and every
survivor's quality key confidence + 0.1*bbox.x is an actual number (no
NaN), the adapter returns the head of the stable descending sort, and
that candidate maximizes the key over all survivors; the counterexample
above shows the no-NaN condition is necessary. -/
theorem c7_best_quality (items : List JsValue)
    (hnum : ∀ c ∈ survivors items, (qualityKey c).isSome)
    (hlen : 1 < (survivors items).length) :
    ∃ best rest, sortByQuality (survivors items) = best :: rest ∧
      detectLogoWithVision items =
        { found := true, confidence := best.confidence, bbox := best.bbox,
          matchedReference := best.matchedReference } ∧
      ∀ c ∈ survivors items,
        (qualityKey c).getD 0 ≤ (qualityKey best).getD 0 := by
  cases hs : sortByQuality (survivors items) with
  | nil =>
    exfalso
    have := length_sortByQuality (survivors items)
    rw [hs] at this
    simp at this
    omega
  | cons best rest =>
    refine ⟨best, rest, rfl, detectVision_found items best rest hs, ?_⟩
    intro c hc
    have hsorted := sorted_sortByQuality (survivors items) hnum
    rw [hs, List.sorted_cons] at hsorted
    have hcmem : c ∈ sortByQuality (survivors items) := mem_sortByQuality_of_mem c _ hc
    rw [hs] at hcmem
    rcases List.mem_cons.mp hcmem with rfl | hmem
    · exact le_refl _
    · exact hsorted.1 c hmem

/-- C7, witness: with two numeric candidates of keys 0.52 and 0.91 the
returned candidate dominates both keys. -/
theorem c7_best_quality_witness :
    (qualityKey (mkCandidate c7LowItem)).getD 0 ≤ (91:ℚ)/100 := by
  obtain ⟨best, rest, hsort, hdet, hmax⟩ := c7_best_quality c7NumReply
    (by with_unfolding_all decide) (by with_unfolding_all decide)
  have hlow := hmax (mkCandidate c7LowItem)
    (List.mem_filter.mpr ⟨List.mem_map.mpr ⟨c7LowItem, by
      rw [c7NumReply]; exact List.mem_cons_self _ _, rfl⟩,
      by with_unfolding_all decide⟩)
  have hbestkey : (qualityKey best).getD 0 = 91/100 := by
    have hb : best ∈ survivors c7NumReply := by
      have : best ∈ sortByQuality (survivors c7NumReply) := by
        rw [hsort]; exact List.mem_cons_self best rest
      exact mem_sortByQuality best _ this
    have hhigh := hmax (mkCandidate c7HighItem)
      (List.mem_filter.mpr ⟨List.mem_map.mpr ⟨c7HighItem, by
        rw [c7NumReply]; exact List.mem_cons_of_mem _ (List.mem_cons_self _ _), rfl⟩,
        by with_unfolding_all decide⟩)
    have hkeyhigh : (qualityKey (mkCandidate c7HighItem)).getD 0 = 91/100 := by
      with_unfolding_all decide
    have hbmem2 : best = mkCandidate c7LowItem ∨ best = mkCandidate c7HighItem := by
      have hmap : best ∈ (c7NumReply.map mkCandidate) := List.mem_of_mem_filter hb
      rw [c7NumReply] at hmap
      obtain ⟨it, hmem, rfl⟩ := List.mem_map.mp hmap
      rcases List.mem_cons.mp hmem with rfl | hmem'
      · exact Or.inl rfl
      · rcases List.mem_cons.mp hmem' with rfl | h0
        · exact Or.inr rfl
        · cases h0
    rcases hbmem2 with rfl | rfl
    · exfalso
      have : (qualityKey (mkCandidate c7LowItem)).getD 0 = 52/100 := by
        with_unfolding_all decide
      rw [this] at hhigh
      rw [hkeyhigh] at hhigh
      norm_num at hhigh
    · exact hkeyhigh
  rw [← hbestkey]
  exact hlow

/-- C10: detectLogoWithVision returns found=true exactly when some
parsed candidate passes the filter (truthy found flag and a bbox with
strictly positive clamped width and height); a found=true result always
carries such a bbox, and in every other case the degenerate not-found
result (confidence 0, null bbox, null matchedReference) is returned. -/
theorem c10_found_invariant (items : List JsValue) :
    ((detectLogoWithVision items).found = true ↔
      ∃ it ∈ items, passesFilter (mkCandidate it) = true) ∧
    ((detectLogoWithVision items).found = true →
      ∃ b, (detectLogoWithVision items).bbox = some b ∧
        posNum b.width = true ∧ posNum b.height = true) ∧
    ((detectLogoWithVision items).found = false →
      detectLogoWithVision items = visionNotFound) := by
  cases hs : sortByQuality (survivors items) with
  | nil =>
    have hdet := detectVision_empty items hs
    have hsurv : survivors items = [] := by
      have := length_sortByQuality (survivors items)
      rw [hs] at this
      exact List.length_eq_zero.mp this.symm
    refine ⟨?_, ?_, fun _ => hdet⟩
    · rw [hdet]
      constructor
      · intro h
        cases h
      · rintro ⟨it, hmem, hpass⟩
        exfalso
        have : mkCandidate it ∈ survivors items :=
          List.mem_filter.mpr ⟨List.mem_map.mpr ⟨it, hmem, rfl⟩, hpass⟩
        rw [hsurv] at this
        cases this
    · intro h
      rw [hdet] at h
      cases h
  | cons best rest =>
    have hdet := detectVision_found items best rest hs
    have hbmem : best ∈ survivors items :=
      mem_sortByQuality _ _ (hs ▸ List.mem_cons_self best rest)
    have hpass : passesFilter best = true := List.of_mem_filter hbmem
    refine ⟨?_, ?_, ?_⟩
    · rw [hdet]
      constructor
      · intro _
        have hmap : best ∈ items.map mkCandidate := List.mem_of_mem_filter hbmem
        obtain ⟨it, hmem, rfl⟩ := List.mem_map.mp hmap
        exact ⟨it, hmem, hpass⟩
      · intro _
        rfl
    · intro _
      rw [hdet]
      rw [passesFilter, Bool.and_eq_true] at hpass
      rcases hbbox : best.bbox with - | b
      · rw [hbbox] at hpass
        cases hpass.2
      · rw [hbbox] at hpass
        rw [Bool.and_eq_true] at hpass
        exact ⟨b, rfl, hpass.2.1, hpass.2.2⟩
    · intro h
      rw [hdet] at h
      cases h

/-- C10, witness: a reply with one passing candidate yields found=true
with a positive bbox, and the empty reply yields the not-found result. -/
theorem c10_found_witness :
    (detectLogoWithVision c10GoodReply).found = true ∧
    detectLogoWithVision [] = visionNotFound := by
  refine ⟨(c10_found_invariant c10GoodReply).1.mpr
    ⟨c10GoodItem, by rw [c10GoodReply]; exact List.mem_cons_self _ _,
      by with_unfolding_all decide⟩,
    (c10_found_invariant []).2.2 (by with_unfolding_all decide)⟩

theorem buildStep_fails (f : RefImage) (tw : ℕ)
    (hfail : (f.variantAt tw).width < 40 ∨ (f.variantAt tw).height < 12 ∨
      edgeCountOf (computeEdgeMap (f.variantAt tw).gray (f.variantAt tw).width
        (f.variantAt tw).height) ((f.variantAt tw).width * (f.variantAt tw).height) < 40) :
    ∀ acc, buildStep f acc tw = acc := by
  intro acc
  rw [buildStep]
  by_cases hdim : (f.variantAt tw).width = 0 ∨ (f.variantAt tw).height = 0 ∨
      (f.variantAt tw).width < 40 ∨ (f.variantAt tw).height < 12
  · rw [if_pos hdim]
  · rw [if_neg hdim]
    rcases hfail with h | h | h
    · exact absurd (Or.inr (Or.inr (Or.inl h))) hdim
    · exact absurd (Or.inr (Or.inr (Or.inr h))) hdim
    · rw [if_pos h]

theorem foldl_buildStep_nil (f : RefImage) (l : List ℕ)
    (h : ∀ tw ∈ l, (f.variantAt tw).width < 40 ∨ (f.variantAt tw).height < 12 ∨
      edgeCountOf (computeEdgeMap (f.variantAt tw).gray (f.variantAt tw).width
        (f.variantAt tw).height) ((f.variantAt tw).width * (f.variantAt tw).height) < 40) :
    ∀ acc, l.foldl (buildStep f) acc = acc := by
  induction l with
  | nil => intro acc; rfl
  | cons tw l ih =>
    intro acc
    rw [List.foldl_cons, buildStep_fails f tw (h tw (List.mem_cons_self tw l)) acc]
    exact ih (fun v hv => h v (List.mem_cons_of_mem tw hv)) acc

theorem buildVariants_nil (f : RefImage)
    (hf : f.baseMeta = none ∨ ∀ tw ∈ targetWidths,
      (f.variantAt tw).width < 40 ∨ (f.variantAt tw).height < 12 ∨
      edgeCountOf (computeEdgeMap (f.variantAt tw).gray (f.variantAt tw).width
        (f.variantAt tw).height) ((f.variantAt tw).width * (f.variantAt tw).height) < 40) :
    buildVariants f = [] := by
  rcases hf with h | h
  · rw [buildVariants, h]
  · rw [buildVariants]
    cases hmeta : f.baseMeta with
    | none => rfl
    | some m => exact foldl_buildStep_nil f targetWidths h []

theorem loadLogoTemplates_error (entries : List RefImage)
    (hbad : (entries.filter fun f => hasImageExt f.name) = [] ∨
      ∀ f ∈ entries, hasImageExt f.name = true →
        (f.baseMeta = none ∨ ∀ tw ∈ targetWidths,
          (f.variantAt tw).width < 40 ∨ (f.variantAt tw).height < 12 ∨
          edgeCountOf (computeEdgeMap (f.variantAt tw).gray (f.variantAt tw).width
            (f.variantAt tw).height)
            ((f.variantAt tw).width * (f.variantAt tw).height) < 40)) :
    loadLogoTemplates entries = Except.error "No logo references found" ∨
    loadLogoTemplates entries = Except.error "No usable template variants could be built" := by
  by_cases hempty : (entries.filter fun f => hasImageExt f.name) = []
  · left
    rw [loadLogoTemplates, hempty]
    rfl
  · rcases hbad with h | h
    · exact absurd h hempty
    · right
      rw [loadLogoTemplates]
      rw [if_neg (by simpa [List.isEmpty_iff] using hempty)]
      have hfold : ∀ (l : List RefImage), (∀ f ∈ l, buildVariants f = []) →
          ∀ acc : List Template, l.foldl (fun acc f => acc ++ buildVariants f) acc = acc := by
        intro l
        induction l with
        | nil => intro _ acc; rfl
        | cons g l ih =>
          intro hl acc
          rw [List.foldl_cons, hl g (List.mem_cons_self g l), List.append_nil]
          exact ih (fun e he => hl e (List.mem_cons_of_mem g he)) acc
      rw [hfold _ ?_ []]
      · rfl
      · intro f hf
        have hmem := List.mem_filter.mp hf
        exact buildVariants_nil f (h f hmem.1 hmem.2)

/-- C5: with the deterministic detector selected, an extension-filtered
empty reference directory, or one whose variants are all discarded
(width < 40, height < 12 or fewer than 40 edge pixels, or missing
metadata), makes processPdf fail before any page is processed: the job
result is an error and no audit record exists. -/
theorem c5_config_error (cfg : ProcCfg) (entries : List RefImage)
    (pc rc : ℕ) (detect : ℕ → PageInput)
    (hmode : cfg.detectorMode ≠ "ai-probe" ∧ cfg.detectorMode ≠ "ai-cut")
    (hbad : (entries.filter fun f => hasImageExt f.name) = [] ∨
      ∀ f ∈ entries, hasImageExt f.name = true →
        (f.baseMeta = none ∨ ∀ tw ∈ targetWidths,
          (f.variantAt tw).width < 40 ∨ (f.variantAt tw).height < 12 ∨
          edgeCountOf (computeEdgeMap (f.variantAt tw).gray (f.variantAt tw).width
            (f.variantAt tw).height)
            ((f.variantAt tw).width * (f.variantAt tw).height) < 40)) :
    processPdf cfg entries pc rc detect = Except.error "No logo references found" ∨
    processPdf cfg entries pc rc detect =
      Except.error "No usable template variants could be built" := by
  have hnot : ¬ (cfg.detectorMode = "ai-probe" ∨ cfg.detectorMode = "ai-cut") := by
    rintro (h | h)
    · exact hmode.1 h
    · exact hmode.2 h
  rcases loadLogoTemplates_error entries hbad with h | h
  · left
    rw [processPdf]
    rw [if_neg hnot, h]
  · right
    rw [processPdf]
    rw [if_neg hnot, h]

/-- C5, witness: a deterministic run over a directory whose only PNG
yields 10x5 variants fails with the zero-usable-variants error. -/
theorem c5_config_error_witness :
    processPdf cfgDet badRefEntries 1 1 (fun _ => ⟨0, false, false⟩) =
        Except.error "No logo references found" ∨
    processPdf cfgDet badRefEntries 1 1 (fun _ => ⟨0, false, false⟩) =
        Except.error "No usable template variants could be built" :=
  c5_config_error cfgDet badRefEntries 1 1 (fun _ => ⟨0, false, false⟩)
    (by constructor <;> with_unfolding_all decide)
    (Or.inr (by with_unfolding_all decide))

theorem processPdf_ok (cfg : ProcCfg) (entries : List RefImage) (pc rc : ℕ)
    (detect : ℕ → PageInput) (r : JobResult)
    (hok : processPdf cfg entries pc rc detect = Except.ok r) :
    r = processCore cfg pc rc detect := by
  rw [processPdf] at hok
  split at hok
  · cases hok
  · split at hok
    · cases hok
    · exact (Except.ok.injEq _ _ ▸ hok).symm

/-- C1, counterexample.  In ai-probe mode a credible match with score
1 ≥ autoThreshold = 0.62 (> reviewThreshold = 0.48) does NOT get a
redaction: line 682 of processor.js excludes ai-probe from the
auto-apply branch, so the page falls into the review branch.  The claim
says the action should be removed (or replaced_footer_banner) with a
redaction applied "for every detector mode". -/
theorem c1_ai_probe_counterexample :
    processPdf cfgAiProbe aiRefEntries 1 1 (fun _ => ⟨1, true, false⟩) =
      Except.ok
        { pages := [⟨1, 1, true, Action.review, false⟩], totalPages := 1,
          totalPagesInPdf := 1, removed := 0, review := 1, noneCount := 0,
          statusHint := "needs_review", pagesTotal := 1, pagesProcessed := 1,
          hasReview := true } ∧
    ((48:ℚ)/100 < 62/100 ∧ (62:ℚ)/100 ≤ 1) := by
  constructor
  · with_unfolding_all rfl
  · constructor <;> norm_num

/-- C1, amended.  For every job that completes, every audit record is
exactly the decision block's output for that page, and for every
detection input and thresholds with reviewThreshold < autoThreshold the
decision block satisfies: in every mode other than ai-probe, credible
and score ≥ autoThreshold yields a redaction tagged
replaced_footer_banner for a wide footer strip and removed otherwise;
in ai-probe mode a credible match with score ≥ reviewThreshold
(including ≥ autoThreshold) yields review with no redaction; credible
with reviewThreshold ≤ score < autoThreshold yields review with no
redaction in every mode; and otherwise the action is none with no
redaction.  (Inputs are taken after the forceFooterBanner override.) -/
theorem c1_decision_policy (cfg : ProcCfg) (entries : List RefImage) (pc rc : ℕ)
    (detect : ℕ → PageInput) (r : JobResult)
    (hth : cfg.reviewThreshold < cfg.autoThreshold)
    (hok : processPdf cfg entries pc rc detect = Except.ok r) :
    (∀ i (hi : i < r.pages.length), r.pages.get ⟨i, hi⟩ = pageStep cfg (detect i) (i + 1)) ∧
    (∀ (inp : PageInput) (n : ℕ),
      ((cfg.detectorMode ≠ "ai-probe" ∧ (effectiveInput cfg inp).credible = true ∧
          cfg.autoThreshold ≤ (effectiveInput cfg inp).score) →
        (pageStep cfg inp n).action =
          (if (effectiveInput cfg inp).wideFooterStrip then Action.replacedFooterBanner
           else Action.removed) ∧
        (pageStep cfg inp n).redacted = true) ∧
      ((cfg.detectorMode = "ai-probe" ∧ (effectiveInput cfg inp).credible = true ∧
          cfg.reviewThreshold ≤ (effectiveInput cfg inp).score) →
        (pageStep cfg inp n).action = Action.review ∧
        (pageStep cfg inp n).redacted = false) ∧
      (((effectiveInput cfg inp).credible = true ∧
          cfg.reviewThreshold ≤ (effectiveInput cfg inp).score ∧
          (effectiveInput cfg inp).score < cfg.autoThreshold) →
        (pageStep cfg inp n).action = Action.review ∧
        (pageStep cfg inp n).redacted = false) ∧
      (((effectiveInput cfg inp).credible = false ∨
          (effectiveInput cfg inp).score < cfg.reviewThreshold) →
        (pageStep cfg inp n).action = Action.acted_none ∧
        (pageStep cfg inp n).redacted = false)) := by
  constructor
  · have hr := processPdf_ok cfg entries pc rc detect r hok
    subst hr
    intro i hi
    show ((List.range _).map fun k => pageStep cfg (detect k) (k + 1)).get ⟨i, hi⟩ =
      pageStep cfg (detect i) (i + 1)
    rw [List.get_eq_getElem, List.getElem_map, List.getElem_range]
  · intro inp n
    rw [pageStep]
    by_cases h1 : cfg.detectorMode ≠ "ai-probe" ∧ (effectiveInput cfg inp).credible = true ∧
        cfg.autoThreshold ≤ (effectiveInput cfg inp).score
    · rw [if_pos h1]
      refine ⟨fun _ => ⟨rfl, rfl⟩, ?_, ?_, ?_⟩
      · rintro ⟨hmode, -⟩
        exact absurd hmode h1.1
      · rintro ⟨-, -, hlt⟩
        exact absurd h1.2.2 (not_le.mpr hlt)
      · rintro (hnp | hlt)
        · rw [h1.2.1] at hnp
          cases hnp
        · exact absurd h1.2.2 (not_le.mpr (lt_trans hlt hth))
    · rw [if_neg h1]
      by_cases h2 : (effectiveInput cfg inp).credible = true ∧
          cfg.reviewThreshold ≤ (effectiveInput cfg inp).score
      · rw [if_pos h2]
        refine ⟨fun hcon => absurd hcon h1, fun _ => ⟨rfl, rfl⟩, fun _ => ⟨rfl, rfl⟩, ?_⟩
        rintro (hnp | hlt)
        · rw [h2.1] at hnp
          cases hnp
        · exact absurd h2.2 (not_le.mpr hlt)
      · rw [if_neg h2]
        refine ⟨fun hcon => absurd hcon h1, ?_, ?_, fun _ => ⟨rfl, rfl⟩⟩
        · rintro ⟨-, hp, hs⟩
          exact absurd ⟨hp, hs⟩ h2
        · rintro ⟨hp, hs, -⟩
          exact absurd ⟨hp, hs⟩ h2

theorem c1_wit_len :
    0 < (processCore cfgAiCut 1 1 fun _ => PageInput.mk 1 true true).pages.length := by
  with_unfolding_all decide

/-- C1, witness: in ai-cut mode a credible wide footer strip with
score 1 yields exactly the replaced_footer_banner redaction. -/
theorem c1_decision_policy_witness :
    (processCore cfgAiCut 1 1 fun _ => PageInput.mk 1 true true).pages.get ⟨0, c1_wit_len⟩ =
      pageStep cfgAiCut ⟨1, true, true⟩ 1 ∧
    (pageStep cfgAiCut ⟨1, true, true⟩ 1).action = Action.replacedFooterBanner ∧
    (pageStep cfgAiCut ⟨1, true, true⟩ 1).redacted = true := by
  have h := c1_decision_policy cfgAiCut aiRefEntries 1 1 (fun _ => PageInput.mk 1 true true)
    (processCore cfgAiCut 1 1 fun _ => PageInput.mk 1 true true)
    (by norm_num [cfgAiCut]) (by with_unfolding_all rfl)
  have h2 := h.2 ⟨1, true, true⟩ 1
  have h3 := h2.1 ⟨by with_unfolding_all decide, by with_unfolding_all decide,
    by norm_num [cfgAiCut, effectiveInput]⟩
  refine ⟨h.1 0 c1_wit_len, ?_, h3.2⟩
  rw [h3.1]
  with_unfolding_all decide

theorem needs_review_iff (c : Prop) [inst : Decidable c] :
    ((if c then "needs_review" else "completed") = "needs_review") ↔ c := by
  split
  · next h => exact ⟨fun _ => h, fun _ => rfl⟩
  · next h => exact ⟨fun hs => absurd hs (by decide), fun hc => absurd hc h⟩

theorem isRemovedLike_eq (a : Action) :
    isRemovedLike a = decide (a = Action.removed ∨ a = Action.removedFooterStrip ∨
      a = Action.replacedFooterBanner) := by
  cases a <;> rfl

theorem pageStep_pageNumber (cfg : ProcCfg) (inp : PageInput) (n : ℕ) :
    (pageStep cfg inp n).pageNumber = n := by
  rw [pageStep]
  split
  · rfl
  · split
    · rfl
    · rfl

/-- C8: after all pages, the removed count is the number of audit
records whose action is removed, removed_footer_strip or
replaced_footer_banner (so replaced_footer_banner pages are counted as
removed); hasReview and statusHint = "needs_review" hold exactly when
the review count is positive or the removed count is zero; and one
audit record is accumulated per processed page, in page-number order
(record i carries page number i+1). -/
theorem c8_summary_counts (cfg : ProcCfg) (entries : List RefImage) (pc rc : ℕ)
    (detect : ℕ → PageInput) (r : JobResult)
    (hok : processPdf cfg entries pc rc detect = Except.ok r) :
    r.removed = r.pages.countP (fun p => decide (p.action = Action.removed ∨
      p.action = Action.removedFooterStrip ∨ p.action = Action.replacedFooterBanner)) ∧
    r.review = r.pages.countP (fun p => decide (p.action = Action.review)) ∧
    (r.hasReview = true ↔ (0 < r.review ∨ r.removed = 0)) ∧
    (r.statusHint = "needs_review" ↔ (0 < r.review ∨ r.removed = 0)) ∧
    r.pages.length = r.totalPages ∧
    (∀ i (hi : i < r.pages.length), (r.pages.get ⟨i, hi⟩).pageNumber = i + 1) := by
  have hr := processPdf_ok cfg entries pc rc detect r hok
  subst hr
  refine ⟨?_, rfl, ?_, ?_, ?_, ?_⟩
  · show ((List.range _).map fun i => pageStep cfg (detect i) (i + 1)).countP
      (fun p => isRemovedLike p.action) = _
    refine List.countP_congr fun p _ => ?_
    rw [isRemovedLike_eq]
  · exact ⟨fun h => of_decide_eq_true h, fun h => decide_eq_true h⟩
  · exact needs_review_iff (0 < (processCore cfg pc rc detect).review ∨
      (processCore cfg pc rc detect).removed = 0)
  · show ((List.range _).map fun i => pageStep cfg (detect i) (i + 1)).length = _
    rw [List.length_map, List.length_range]
    rfl
  · intro i hi
    show (((List.range _).map fun k => pageStep cfg (detect k) (k + 1)).get
      ⟨i, hi⟩).pageNumber = i + 1
    rw [List.get_eq_getElem, List.getElem_map, List.getElem_range,
      pageStep_pageNumber]

/-- C8, witness: a one-page ai-probe run that lands in review has
review count 1, counts the page under neither removed nor none, and
reports needs_review. -/
theorem c8_summary_counts_witness :
    (processCore cfgAiProbe 1 1 fun _ => PageInput.mk 1 true false).review =
      ((processCore cfgAiProbe 1 1 fun _ => PageInput.mk 1 true false).pages.countP
        fun p => decide (p.action = Action.review)) ∧
    (processCore cfgAiProbe 1 1 fun _ => PageInput.mk 1 true false).statusHint =
      "needs_review" := by
  have h := c8_summary_counts cfgAiProbe aiRefEntries 1 1
    (fun _ => PageInput.mk 1 true false)
    (processCore cfgAiProbe 1 1 fun _ => PageInput.mk 1 true false)
    (by with_unfolding_all rfl)
  refine ⟨h.2.1, h.2.2.2.1.mpr (Or.inl ?_)⟩
  with_unfolding_all decide

/-- C9: a completed job processes only the first
min(min(pdf page count, render page count), maxPagesPerJob,
aiMaxPagesPerJob, and aiPageLimit when positive) pages:
summary.totalPages, pagesTotal and pagesProcessed all equal this capped
count, totalPagesInPdf records the uncapped document page count, the
audit list has exactly that many records, and every record's page
number is at most the cap (so pages past the cap get no audit record
and no redaction). -/
theorem c9_page_caps (cfg : ProcCfg) (entries : List RefImage) (pc rc : ℕ)
    (detect : ℕ → PageInput) (r : JobResult)
    (hok : processPdf cfg entries pc rc detect = Except.ok r) :
    r.totalPages = (if 0 < cfg.aiPageLimit then
        min (min (min pc rc) (min cfg.maxPagesPerJob cfg.aiMaxPagesPerJob))
          cfg.aiPageLimit.toNat
      else min (min pc rc) (min cfg.maxPagesPerJob cfg.aiMaxPagesPerJob)) ∧
    r.pagesTotal = r.totalPages ∧
    r.pagesProcessed = r.totalPages ∧
    r.totalPagesInPdf = min pc rc ∧
    r.pages.length = r.totalPages ∧
    (∀ p ∈ r.pages, p.pageNumber ≤ r.totalPages) := by
  have hr := processPdf_ok cfg entries pc rc detect r hok
  subst hr
  refine ⟨?_, ?_, ?_, ?_, ?_, ?_⟩
  · rfl
  · rfl
  · rfl
  · rfl
  · show ((List.range _).map fun i => pageStep cfg (detect i) (i + 1)).length = _
    rw [List.length_map, List.length_range]
    rfl
  · intro p hp
    rcases List.mem_map.mp hp with ⟨k, hk, rfl⟩
    rw [pageStep_pageNumber]
    exact List.mem_range.mp hk

/-- C9, witness: a 5-page document under maxPagesPerJob = 2 processes
exactly 2 pages and records 5 as the uncapped count. -/
theorem c9_page_caps_witness :
    (processCore cfgCap 5 5 fun _ => PageInput.mk 0 false false).totalPages = 2 ∧
    (processCore cfgCap 5 5 fun _ => PageInput.mk 0 false false).totalPagesInPdf = 5 ∧
    (processCore cfgCap 5 5 fun _ => PageInput.mk 0 false false).pages.length = 2 := by
  have h := c9_page_caps cfgCap aiRefEntries 5 5 (fun _ => PageInput.mk 0 false false)
    (processCore cfgCap 5 5 fun _ => PageInput.mk 0 false false)
    (by with_unfolding_all rfl)
  refine ⟨?_, h.2.2.2.1, ?_⟩
  · rw [h.1]
    with_unfolding_all decide
  · rw [h.2.2.2.2.1, h.1]
    with_unfolding_all decide

end PdfLogo
